import Mathlib

/-!
# Geo-distance, nearest-site selection and the RTT table of `okitz/ncdn`

Shallow embedding of `Location`, `Location.IsZero`, `Location.Distance`,
`Location.Nearest` and `AverageLocation` of `gslb/gslbcore/geo_service.go`, and of the
RTT-table pipeline of `gslb/tools/city_info_prep/main.go`: `filterServerCSV`,
`filterPingsCSV`, `calculateAverageRTTMap` and `convertRTTMapToArray`.

## Number model

A Go `float64` is an IEEE 754 binary64 number, and every operation rounds to nearest, ties
to even.  The type `float64` below computes exactly that on integers.  A finite binary64 is
an integer multiple `v * 2 ^ (-1074)` of the smallest positive one, with a magnitude of at
most 53 significant bits below `2 ^ 2098` (in these units): it is `Raw.fin v`.  The other
values are `Raw.inf false`, `Raw.inf true` (the infinities) and `Raw.nan`.  Sums, products
and quotients are computed exactly on the integers and rounded once, by `Raw.round`;
overflow gives an infinity, underflow a subnormal number or zero.

Two identifications are made: `+0` and `-0` are one value (`Raw.fin 0`), and all NaNs are
one value.  Go's `==`, `<`, `+`, `-`, `*`, and `/` by a divisor other than zero cannot tell
the identified values apart, and the code divides only by `180.0`, by `2` and by
`float64(n)` for a count `n ≥ 1`.  (A zero divisor is read as `+0` by `Raw.div`.)  Equality
of two values of the model therefore means: equal by Go's `==`, or both NaN.  In particular
`x = 0` is the model's reading of Go's `x == 0` (lemma `float64.beq_zero`).

Each operation is rounded on its own.  A compiler that fuses `x*y + z` into one operation
(allowed by the Go specification, not done for `amd64` by default) rounds the haversine
term of `Distance` differently; that is not modelled.

## The `math` package

`math.Pi` is a constant: its conversion to `float64` is `Pi` below.  `math.Sin`, `math.Cos`,
`math.Sqrt` and `math.Atan2` are not part of the repository: they are a parameter
`M : MathLib`, and every fact about them that a statement needs is a hypothesis of that
statement, chosen among the facts that hold of Go's functions: the special cases that the
documentation of the package lists (`MathLib.NaNCases`, `MathLib.ZeroCases`), that
`math.Sin` is odd, and the ranges of `math.Cos`, `math.Sqrt` and `math.Atan2`, each stated
so that it allows the result NaN.  `math.Atan2` is the one function here that tells `-0`
from `+0`; `Distance` applies it to two results of `math.Sqrt` on the haversine term `h` and
on `1 - h`, neither of which is ever `-0` (`h` is a square plus a product, and `1 - 1` is
`+0`), so `M.Atan2` stands for Go's function with a zero argument read as `+0`.

## Pointers

`Nearest` returns `&loc`, the address of the loop variable; the module imports
`geoip2-golang/v2` and uses the `omitzero` tag, so it is built with the per-iteration loop
variables of Go 1.22 and later, and `&loc` points to a copy of the slice element of that
iteration.  The package variables `zeroLocation` and `MAX_DISTANCE` are never assigned in
the sources and are modelled as constants.
-/

namespace Gslbcore

/-! ## `float64` -/

/-- The value `1.0` in units of `2 ^ (-1074)`, the smallest positive `float64`. -/
@[irreducible] def unit : Nat := 2 ^ 1074

/-- The first magnitude beyond the finite range, `2 ^ 1024` in units of `2 ^ (-1074)`: a
result that rounds to it or above is an infinity. -/
@[irreducible] def huge : Nat := 2 ^ 2098

/-- The quotient `a / b` rounded to the nearest natural number, ties to the even one. -/
def roundHalfEven (a b : Nat) : Nat :=
  if 2 * (a % b) < b then a / b
  else if b < 2 * (a % b) then a / b + 1
  else if (a / b) % 2 = 0 then a / b else a / b + 1

/-- Binary search, in `i` steps, for the largest `j' ≥ j` with `2 ^ (52 + j') ≤ q`. -/
def binSearch : Nat → Nat → Nat → Nat
  | 0, _, j => j
  | i + 1, q, j => binSearch i q (if 2 ^ (52 + j + 2 ^ i) ≤ q then j + 2 ^ i else j)

/-- The number of low bits that a magnitude `q < 2 ^ 2100` has beyond 53 significant bits:
`0` when `q < 2 ^ 53`, and otherwise the `j` with `2 ^ (52 + j) ≤ q < 2 ^ (53 + j)`. -/
def excessBits (q : Nat) : Nat := binSearch 11 q 0

/-- The quotient `a / b` rounded to 53 significant bits, ties to even: the magnitude of the
nearest `float64`, in units of `2 ^ (-1074)` when `a / b` is in these units. -/
def roundMag (a b : Nat) : Nat :=
  roundHalfEven a (b * 2 ^ excessBits (a / b)) * 2 ^ excessBits (a / b)

/-- A `float64` before the check of its representation: NaN, an infinity with its sign, or
the finite value `v * 2 ^ (-1074)`. -/
inductive Raw
  | nan
  | inf (neg : Bool)
  | fin (v : Int)
deriving DecidableEq

namespace Raw

/-- The `float64` nearest to `n / d * 2 ^ (-1074)`: the rounding that every arithmetic
operation ends with. -/
def round (n : Int) (d : Nat) : Raw :=
  if huge ≤ n.natAbs / d then inf (decide (n < 0))
  else if huge ≤ roundMag n.natAbs d then inf (decide (n < 0))
  else if n < 0 then fin (-(roundMag n.natAbs d : Int))
  else fin (roundMag n.natAbs d : Int)

/-- Whether the value is a `float64`: a finite value has a magnitude below `2 ^ 2098` with at
most 53 significant bits. -/
def canonical : Raw → Bool
  | fin v => decide (v.natAbs < huge) && decide (v.natAbs % 2 ^ excessBits v.natAbs = 0)
  | _ => true

/-- Go: unary `-x`. -/
def neg : Raw → Raw
  | nan => nan
  | inf s => inf (!s)
  | fin v => fin (-v)

/-- Go: `x + y`. -/
def add : Raw → Raw → Raw
  | fin a, fin b => round (a + b) 1
  | fin _, inf t => inf t
  | inf s, fin _ => inf s
  | inf s, inf t => if s = t then inf s else nan
  | _, _ => nan

/-- Go: `x - y`, which is `x + (-y)`. -/
def sub (x y : Raw) : Raw := add x (neg y)

/-- Go: `x * y`. -/
def mul : Raw → Raw → Raw
  | fin a, fin b => round (a * b) unit
  | fin a, inf t => if a = 0 then nan else inf (decide (a < 0) != t)
  | inf s, fin b => if b = 0 then nan else inf (s != decide (b < 0))
  | inf s, inf t => inf (s != t)
  | _, _ => nan

/-- Go: `x / y`.  A zero divisor is read as `+0`. -/
def div : Raw → Raw → Raw
  | fin a, fin b =>
    if b = 0 then (if a = 0 then nan else inf (decide (a < 0)))
    else round (if b < 0 then -(a * unit) else a * unit) b.natAbs
  | fin _, inf _ => fin 0
  | inf s, fin b => inf (s != decide (b < 0))
  | _, _ => nan

/-- The position of a value in the order of the numbers: none for NaN, which is not
ordered. -/
def key : Raw → Option Int
  | nan => none
  | inf s => some (if s then -(huge : Int) else (huge : Int))
  | fin v => some v

/-- Go: `x < y`, false when either operand is NaN. -/
def lt (x y : Raw) : Bool :=
  match x.key, y.key with
  | some a, some b => decide (a < b)
  | _, _ => false

/-- Go: `x <= y`, false when either operand is NaN. -/
def le (x y : Raw) : Bool :=
  match x.key, y.key with
  | some a, some b => decide (a ≤ b)
  | _, _ => false

/-- Go: `x == y`, false when either operand is NaN. -/
def eq (x y : Raw) : Bool :=
  match x.key, y.key with
  | some a, some b => decide (a = b)
  | _, _ => false

end Raw

/-- Go: `float64`, up to the sign of a zero and the payload of a NaN. -/
structure float64 where
  val : Raw
  ok : val.canonical = true
deriving DecidableEq

namespace float64

/-- The `float64` with the given representation.  Every operation below passes a canonical
value (lemmas `Raw.round_canonical`, `Raw.add_canonical` and the like), so the second
branch is never taken. -/
def ofRaw (r : Raw) : float64 :=
  if h : r.canonical = true then ⟨r, h⟩ else ⟨Raw.nan, rfl⟩

/-- Go: `math.NaN()`. -/
def nan : float64 := ⟨Raw.nan, rfl⟩

/-- Go: `math.Inf(1)` for `inf false`, `math.Inf(-1)` for `inf true`. -/
def inf (neg : Bool) : float64 := ⟨Raw.inf neg, rfl⟩

/-- The `float64` nearest to the fraction `n / d`: the conversion of a constant. -/
def ofRat (n d : Nat) : float64 := ofRaw (Raw.round ((n : Int) * unit) d)

/-- Go: `float64(n)` for a non-negative integer `n`, and the conversion of an integer
constant. -/
def ofNat (n : Nat) : float64 := ofRat n 1

/-- Go: `math.IsNaN(x)`. -/
def isNaN (x : float64) : Bool :=
  match x.val with
  | Raw.nan => true
  | _ => false

/-- Whether `x` is neither NaN nor an infinity. -/
def isFinite (x : float64) : Bool :=
  match x.val with
  | Raw.fin _ => true
  | _ => false

instance : Add float64 := ⟨fun x y => ofRaw (x.val.add y.val)⟩
instance : Sub float64 := ⟨fun x y => ofRaw (x.val.sub y.val)⟩
instance : Mul float64 := ⟨fun x y => ofRaw (x.val.mul y.val)⟩
instance : Div float64 := ⟨fun x y => ofRaw (x.val.div y.val)⟩
instance : Neg float64 := ⟨fun x => ofRaw x.val.neg⟩
instance : LT float64 := ⟨fun x y => x.val.lt y.val = true⟩
instance : LE float64 := ⟨fun x y => x.val.le y.val = true⟩
instance (x y : float64) : Decidable (x < y) := inferInstanceAs (Decidable (x.val.lt y.val = true))
instance (x y : float64) : Decidable (x ≤ y) := inferInstanceAs (Decidable (x.val.le y.val = true))
instance : BEq float64 := ⟨fun x y => x.val.eq y.val⟩
instance : Zero float64 := ⟨ofNat 0⟩
instance (priority := low) (n : Nat) : OfNat float64 n := ⟨ofNat n⟩
instance : OfScientific float64 :=
  ⟨fun m s e => if s then ofRat m (10 ^ e) else ofNat (m * 10 ^ e)⟩

/-- The sum of a list of numbers as a Go loop `for ... { sum += x }` computes it: accumulated
from `0` in the order of the list, every addition rounded. -/
def sum (xs : List float64) : float64 := xs.foldl (fun s x => s + x) 0

end float64

/-- Go: `math.Pi`, the constant `3.14159265358979323846264338327950288419716939937510582097494459`
converted to `float64`. -/
def Pi : float64 :=
  float64.ofRat 314159265358979323846264338327950288419716939937510582097494459 (10 ^ 62)

/-! ## `gslb/gslbcore/geo_service.go` -/

/-- The functions of Go's `math` package that `Location.Distance` calls, taken as a
parameter. -/
structure MathLib where
  /-- The function `math.Sin`. -/
  Sin : float64 → float64
  /-- The function `math.Cos`. -/
  Cos : float64 → float64
  /-- The function `math.Sqrt`. -/
  Sqrt : float64 → float64
  /-- The function `math.Atan2`, arguments in Go's order `(y, x)`. -/
  Atan2 : float64 → float64 → float64

/-- Special cases that the documentation of Go's `math` package lists: `Sin(±Inf) = NaN`,
`Cos(±Inf) = NaN`, `Sqrt(NaN) = NaN` and `Atan2(NaN, x) = NaN`. -/
structure MathLib.NaNCases (M : MathLib) : Prop where
  Sin_inf : ∀ s, M.Sin (float64.inf s) = float64.nan
  Cos_inf : ∀ s, M.Cos (float64.inf s) = float64.nan
  Sqrt_nan : M.Sqrt float64.nan = float64.nan
  Atan2_nan : ∀ x, M.Atan2 float64.nan x = float64.nan

/-- Values of Go's `math` package at `0` and `1`: the documented special cases
`Sin(±0) = ±0`, `Sqrt(±0) = ±0` and `Atan2(+0, x>=0) = +0`, the exact square root
`Sqrt(1) = 1`, and the range `[-1, 1]` of `Cos` on finite arguments. -/
structure MathLib.ZeroCases (M : MathLib) : Prop where
  Sin_zero : M.Sin 0 = 0
  Cos_range : ∀ x, x.isFinite = true → -1 ≤ M.Cos x ∧ M.Cos x ≤ 1
  Sqrt_zero : M.Sqrt 0 = 0
  Sqrt_one : M.Sqrt 1 = 1
  Atan2_zero_one : M.Atan2 0 1 = 0

/-- Go: `type Location struct { Latitude float64; Longitude float64 }`. -/
structure Location where
  Latitude : float64
  Longitude : float64
deriving DecidableEq

/-- Go: `var zeroLocation Location` (the zero value of the struct). -/
def zeroLocation : Location := ⟨0, 0⟩

/-- Go: `var MAX_DISTANCE = 10000000.0`. -/
def MAX_DISTANCE : float64 := 10000000

/-- Go: `func (l Location) IsZero() bool`. -/
def Location.IsZero (l : Location) : Bool :=
  l.Latitude == 0 && l.Longitude == 0

/-- Go: `func (l Location) Distance(m *Location) float64`.  The pointer argument is
modelled by the value it points to (the caller in this file passes `&loc`). -/
def Location.Distance (M : MathLib) (l m : Location) : float64 :=
  if l.IsZero || m.IsZero then
    MAX_DISTANCE
  else
    let degToRad : float64 → float64 := fun deg => deg * Pi / 180
    -- Haversine formula
    let R : float64 := 6371
    let lat1 := degToRad l.Latitude
    let lat2 := degToRad m.Latitude
    let dLat := degToRad (m.Latitude - l.Latitude)
    let dLon := degToRad (m.Longitude - l.Longitude)
    let h := M.Sin (dLat / 2) * M.Sin (dLat / 2) +
      M.Cos lat1 * M.Cos lat2 * M.Sin (dLon / 2) * M.Sin (dLon / 2)
    let c := 2 * M.Atan2 (M.Sqrt h) (M.Sqrt (1 - h))
    R * c

/-- The local variables of `Location.Nearest` that its loop updates:
`minDistance`, `nearestIndex` and the pointer `nearest` (`none` is `nil`). -/
structure NearestState where
  minDistance : float64
  nearestIndex : Int
  nearest : Option Location

/-- The loop `for i, loc := range locations { ... }` of `Location.Nearest`, run on
the part of the slice that starts at index `i`. -/
def Location.nearestLoop (M : MathLib) (l : Location) :
    List Location → Nat → NearestState → NearestState
  | [], _, st => st
  | loc :: rest, i, st =>
    if loc.IsZero then
      Location.nearestLoop M l rest (i + 1) st
    else
      let distance := l.Distance M loc
      if distance < st.minDistance then
        Location.nearestLoop M l rest (i + 1) ⟨distance, (i : Int), some loc⟩
      else
        Location.nearestLoop M l rest (i + 1) st

/-- Go: `func (l Location) Nearest(locations []Location) (int, *Location)`.  The
returned pointer is modelled by the value it points to: `&zeroLocation` is
`zeroLocation`, and `&loc` is the copy of the slice element made by that iteration
of the loop. -/
def Location.Nearest (M : MathLib) (l : Location) (locations : List Location) :
    Int × Location :=
  if locations.length = 0 then
    (-1, zeroLocation)
  else
    let st := Location.nearestLoop M l locations 0 ⟨MAX_DISTANCE, 0, none⟩
    match st.nearest with
    | none => (-1, zeroLocation)
    | some loc => (st.nearestIndex, loc)

/-- The loop `for _, loc := range locations { ... }` of `AverageLocation`, carrying
`sumLat`, `sumLon` and `num`.  An element of the slice is a pointer: `none` is `nil`,
and the method call `loc.IsZero()` on it dereferences it, so the result `none` is
the run-time panic of a nil dereference. -/
def averageLoop : List (Option Location) → float64 → float64 → Nat →
    Option (float64 × float64 × Nat)
  | [], sumLat, sumLon, num => some (sumLat, sumLon, num)
  | none :: _, _, _, _ => none
  | some loc :: rest, sumLat, sumLon, num =>
    if loc.IsZero then
      averageLoop rest sumLat sumLon num
    else
      averageLoop rest (sumLat + loc.Latitude) (sumLon + loc.Longitude) (num + 1)

/-- Go: `func AverageLocation(locations []*Location) *Location`.  The result `none`
is a panic (nil element); `some p` is the value the returned pointer points to. -/
def AverageLocation (locations : List (Option Location)) : Option Location :=
  if locations.length = 0 then
    some zeroLocation
  else
    match averageLoop locations 0 0 0 with
    | none => none
    | some (sumLat, sumLon, num) =>
      if num = 0 then
        some zeroLocation
      else
        let fnum : float64 := float64.ofNat num
        some ⟨sumLat / fnum, sumLon / fnum⟩

/-- A stand-in for the `math` package, used to run the model on concrete inputs: crude
approximations for small arguments (`Sin x` is `x`, `Cos x` is `1`, `Sqrt x` is `x`,
`Atan2 y x` is `y` cut to `[-1, 1]`) that have the special cases, the symmetry and the
ranges of Go's functions. -/
def stubMath : MathLib where
  Sin x := if x.isFinite then (if x * x ≤ 1 then x else 0) else float64.nan
  Cos x := if x.isFinite then 1 else float64.nan
  Sqrt x := if x < 0 then float64.nan else x
  Atan2 y x :=
    if y.isNaN || x.isNaN then float64.nan
    else if 0 < y then (if y ≤ 1 then y else 1)
    else if y < 0 then (if -1 ≤ y then y else -1)
    else 0

/-- The value of the local variable `h` of `Location.Distance` (the haversine term)
on the branch where neither point is the zero location; used to state facts about
that branch. -/
def Location.haversineTerm (M : MathLib) (l m : Location) : float64 :=
  M.Sin ((m.Latitude - l.Latitude) * Pi / 180 / 2) *
      M.Sin ((m.Latitude - l.Latitude) * Pi / 180 / 2) +
    M.Cos (l.Latitude * Pi / 180) * M.Cos (m.Latitude * Pi / 180) *
      M.Sin ((m.Longitude - l.Longitude) * Pi / 180 / 2) *
      M.Sin ((m.Longitude - l.Longitude) * Pi / 180 / 2)

/-! ## `gslb/tools/city_info_prep/main.go`

A `uint64` is a natural number below `2 ^ 64`; the only arithmetic on one is
`maxSourceID+1`, taken modulo `2 ^ 64`.  A slice is a list.  Reading the CSV files and
decoding them is outside the model: the functions below start from the decoded rows (the
decoder returns an error for a file without a record, so the decoded rows are never
empty).  The functions that only move numbers around are generic in the type `α` of the
numbers; `float64` is the instance of the program.
-/

/-- A Go `map[K]V`: a finite map with pairwise distinct keys.  `range` over the map
visits `entries` in list order.  Go leaves that order unspecified: the lemmas on the
loops that range over a map are stated for an arbitrary list of entries with distinct
keys, so they hold for every order. -/
abbrev GoMap (K V : Type) := AList (fun _ : K => V)

/-- Go: `type Server struct`. -/
structure Server (α : Type) where
  ID : Nat
  Name : String
  Title : String
  Location : String
  State : String
  Country : String
  StateAbbv : String
  Continent : String
  Latitude : α
  Longitude : α
deriving DecidableEq

/-- Go: `type Ping struct`. -/
structure Ping (α : Type) where
  Source : Nat
  Destination : Nat
  Timestamp : String
  Min : α
  Avg : α
  Max : α
  Mdev : α
deriving DecidableEq

/-- The zero value of `Server`, with which `make([]Server, n)` fills the slice. -/
def Server.zero {α : Type} [Zero α] : Server α := ⟨0, "", "", "", "", "", "", "", 0, 0⟩

/-- The loop `for i, value := range names { nameSet[value] = i }` of
`filterServerCSV`, on the part of `names` that starts at index `i`. -/
def buildNameSet : List String → Nat → GoMap String Nat → GoMap String Nat
  | [], _, nameSet => nameSet
  | value :: rest, i, nameSet => buildNameSet rest (i + 1) (nameSet.insert value i)

/-- The loop `for _, row := range rows { ... }` of `filterServerCSV`.  The result
`none` is the run-time panic of `filteredRows[index] = row` with the index out of
range. -/
def filterServerLoop {α : Type} (nameSet : GoMap String Nat) :
    List (Server α) → List (Server α) → Option (List (Server α))
  | [], filteredRows => some filteredRows
  | row :: rest, filteredRows =>
    match nameSet.lookup row.Name with
    | some index =>
      if index < filteredRows.length then
        filterServerLoop nameSet rest (filteredRows.set index row)
      else
        none
    | none => filterServerLoop nameSet rest filteredRows

/-- Go: `func filterServerCSV(filePath string, names []string) ([]Server, error)`,
from the decoded `rows` on (the name-filter stage).  The result `none` is a panic. -/
def filterServerCSV {α : Type} [Zero α] (rows : List (Server α)) (names : List String) :
    Option (List (Server α)) :=
  let nameSet := buildNameSet names 0 ∅
  if nameSet.entries.length = 0 then
    some rows -- Return all rows if no names are provided
  else
    filterServerLoop nameSet rows (List.replicate nameSet.entries.length Server.zero)

/-- The loop `for _, value := range values { valueSet[value] = struct{}{} }` of
`filterPingsCSV`. -/
def buildValueSet : List Nat → GoMap Nat Unit → GoMap Nat Unit
  | [], valueSet => valueSet
  | value :: rest, valueSet => buildValueSet rest (valueSet.insert value ())

/-- The loop `for _, row := range rows { ... }` of `filterPingsCSV`. -/
def filterPingsLoop {α : Type} (valueSet : GoMap Nat Unit) :
    List (Ping α) → List (Ping α) → List (Ping α)
  | [], filteredRows => filteredRows
  | row :: rest, filteredRows =>
    if (valueSet.lookup row.Destination).isSome then
      filterPingsLoop valueSet rest (filteredRows ++ [row])
    else
      filterPingsLoop valueSet rest filteredRows

/-- Go: `func filterPingsCSV(filePath string, values []uint64) ([]Ping, error)`, from
the decoded `rows` on (the sample-filter stage). -/
def filterPingsCSV {α : Type} (rows : List (Ping α)) (values : List Nat) : List (Ping α) :=
  filterPingsLoop (buildValueSet values ∅) rows []

/-- The body of the first loop of `calculateAverageRTTMap`: the inner map of
`ping.Source` is created when absent, and `ping` is appended to the group of
`ping.Destination` in it (a missing group reads as the nil slice). -/
def groupPing {α : Type} (grouped : GoMap Nat (GoMap Nat (List (Ping α)))) (ping : Ping α) :
    GoMap Nat (GoMap Nat (List (Ping α))) :=
  let grouped :=
    if (grouped.lookup ping.Source).isNone then grouped.insert ping.Source ∅ else grouped
  let inner := (grouped.lookup ping.Source).getD ∅
  let group := (inner.lookup ping.Destination).getD []
  grouped.insert ping.Source (inner.insert ping.Destination (group ++ [ping]))

/-- The loop `for _, ping := range group { sumRTT += ping.Avg }`. -/
def sumRTT (group : List (Ping float64)) : float64 :=
  group.foldl (fun sumRTT ping => sumRTT + ping.Avg) 0

/-- The loop `for destination, group := range destinations { ... }` of
`calculateAverageRTTMap`, for one `source`. -/
def averageDestinations (source : Nat) :
    List (Σ _ : Nat, List (Ping float64)) → GoMap Nat (GoMap Nat float64) →
      GoMap Nat (GoMap Nat float64)
  | [], result => result
  | ⟨destination, group⟩ :: rest, result =>
    let averageRTT := sumRTT group / float64.ofNat group.length
    averageDestinations source rest
      (result.insert source (((result.lookup source).getD ∅).insert destination averageRTT))

/-- The loop `for source, destinations := range grouped { ... }` of
`calculateAverageRTTMap`. -/
def averageSources :
    List (Σ _ : Nat, GoMap Nat (List (Ping float64))) → GoMap Nat (GoMap Nat float64) →
      GoMap Nat (GoMap Nat float64)
  | [], result => result
  | ⟨source, destinations⟩ :: rest, result =>
    averageSources rest (averageDestinations source destinations.entries (result.insert source ∅))

/-- Go: `func calculateAverageRTTMap(pings []Ping) map[uint64]map[uint64]float64`. -/
def calculateAverageRTTMap (pings : List (Ping float64)) : GoMap Nat (GoMap Nat float64) :=
  -- Group pings by Source and Destination
  let grouped := pings.foldl groupPing ∅
  -- Calculate average RTT for each Source and Destination
  averageSources grouped.entries ∅

/-- The loop `for source := range rttMap { if source > maxSourceID { ... } }` of
`convertRTTMapToArray`. -/
def maxSource {α : Type} : List (Σ _ : Nat, GoMap Nat α) → Nat → Nat
  | [], maxSourceID => maxSourceID
  | ⟨source, _⟩ :: rest, maxSourceID =>
    if source > maxSourceID then maxSource rest source else maxSource rest maxSourceID

/-- The check of `runtime.makeslice` on `make([]T, len)` for a length `len` of type `uint64`
and elements of `elemSize` bytes, on a 64-bit platform: it panics (`makeslice: len out of
range`) when the length does not fit `int`, and when the size `elemSize * len` of the slice
exceeds `maxAlloc`, which is `2 ^ 48` bytes there.  An allocation that passes the check can
still exhaust the memory of the machine; then the program ends with a fatal error, which, as
everywhere in this model, is not represented. -/
def makeslicePanics (elemSize len : Nat) : Bool :=
  decide (2 ^ 63 ≤ len) || decide (2 ^ 48 < elemSize * len)

/-- The loop `for i, destination := range popServerIds { ... }` of
`convertRTTMapToArray` for one `source`, on the part of `popServerIds` that starts at
index `i`.  The result `none` is the run-time panic of `result[source][i] = ...` with
an index out of range. -/
def fillRow {α : Type} [Zero α] (destinations : GoMap Nat α) (source : Nat) :
    List Nat → Nat → List (List α) → Option (List (List α))
  | [], _, result => some result
  | destination :: rest, i, result =>
    match result[source]? with
    | none => none
    | some row =>
      if i < row.length then
        match destinations.lookup destination with
        | some rtt => fillRow destinations source rest (i + 1) (result.set source (row.set i rtt))
        | none => fillRow destinations source rest (i + 1) (result.set source (row.set i 0))
      else
        none

/-- The loop `for source, destinations := range rttMap { ... }` of
`convertRTTMapToArray`. -/
def fillRows {α : Type} [Zero α] (popServerIds : List Nat) :
    List (Σ _ : Nat, GoMap Nat α) → List (List α) → Option (List (List α))
  | [], result => some result
  | ⟨source, destinations⟩ :: rest, result =>
    match fillRow destinations source popServerIds 0 result with
    | none => none
    | some result => fillRows popServerIds rest result

/-- Go: `func convertRTTMapToArray(rttMap map[uint64]map[uint64]float64,
popServerIds []uint64) [][]float64`.  The result `none` is a run-time panic.  The
length `maxSourceID+1` is a `uint64`, so it is taken modulo `2 ^ 64`; the elements of the
outer slice are slice headers of 24 bytes, and `make` panics as `makeslicePanics` says.
The rows are as long as `popServerIds`, a slice of 8-byte elements that exists, so their
`make` passes the check. -/
def convertRTTMapToArray {α : Type} [Zero α] (rttMap : GoMap Nat (GoMap Nat α))
    (popServerIds : List Nat) : Option (List (List α)) :=
  -- Determine the maximum source ID for array size
  let maxSourceID := maxSource rttMap.entries 0
  -- Initialize the result array
  let n := (maxSourceID + 1) % 2 ^ 64
  if makeslicePanics 24 n then
    none
  else
    -- Populate the result array
    fillRows popServerIds rttMap.entries (List.replicate n (List.replicate popServerIds.length 0))

/-! ## Rounding -/

theorem binSearch_spec (q : Nat) : ∀ (i j : Nat), (j = 0 ∨ 2 ^ (52 + j) ≤ q) →
    q < 2 ^ (52 + j + 2 ^ i) →
    (binSearch i q j = 0 ∨ 2 ^ (52 + binSearch i q j) ≤ q) ∧ q < 2 ^ (53 + binSearch i q j) := by
  intro i
  induction i with
  | zero =>
    intro j hlo hhi
    simp only [binSearch]
    refine ⟨hlo, ?_⟩
    have e : 52 + j + 2 ^ 0 = 53 + j := by
      rw [pow_zero]
      omega
    rwa [e] at hhi
  | succ i ih =>
    intro j hlo hhi
    simp only [binSearch]
    split_ifs with h
    · apply ih
      · right
        have e : 52 + (j + 2 ^ i) = 52 + j + 2 ^ i := by omega
        rw [e]
        exact h
      · have e : 52 + (j + 2 ^ i) + 2 ^ i = 52 + j + 2 ^ (i + 1) := by
          rw [pow_succ]
          omega
        rw [e]
        exact hhi
    · exact ih j hlo (not_le.mp h)

theorem two_pow_le {m n : Nat} (h : m ≤ n) : (2 : Nat) ^ m ≤ 2 ^ n :=
  Nat.pow_le_pow_right (by decide) h

theorem two_pow_lt {m n : Nat} (h : m < n) : (2 : Nat) ^ m < 2 ^ n :=
  Nat.pow_lt_pow_right (by decide) h

theorem lt_of_two_pow_lt {m n : Nat} (h : (2 : Nat) ^ m < 2 ^ n) : m < n := by
  by_contra hc
  exact absurd h (not_lt.mpr (two_pow_le (not_lt.mp hc)))

theorem two_pow_pos (n : Nat) : 0 < (2 : Nat) ^ n := pow_pos (by decide) n

theorem huge_eq : huge = 2 ^ 2098 := by
  unfold huge
  rfl

theorem unit_eq : unit = 2 ^ 1074 := by
  unfold unit
  rfl

theorem unit_pos : 0 < unit := by
  rw [unit_eq]
  exact two_pow_pos 1074

theorem excessBits_spec (q : Nat) (hq : q < 2 ^ 2100) :
    (excessBits q = 0 ∨ 2 ^ (52 + excessBits q) ≤ q) ∧ q < 2 ^ (53 + excessBits q) := by
  have e : 52 + 0 + 2 ^ 11 = 2100 := by decide
  have h := binSearch_spec q 11 0 (Or.inl rfl)
  rw [e] at h
  exact h hq

theorem excessBits_of_lt (q : Nat) (hq : q < 2 ^ 53) : excessBits q = 0 := by
  rcases (excessBits_spec q (lt_trans hq (two_pow_lt (by decide)))).1 with h | h
  · exact h
  · have h1 := lt_of_two_pow_lt (lt_of_le_of_lt h hq)
    omega

theorem roundHalfEven_ge (a b : Nat) : a / b ≤ roundHalfEven a b := by
  unfold roundHalfEven
  split_ifs <;> omega

theorem roundHalfEven_le (a b : Nat) : roundHalfEven a b ≤ a / b + 1 := by
  unfold roundHalfEven
  split_ifs <;> omega

theorem roundHalfEven_of_dvd (a b : Nat) (hb : 0 < b) (h : a % b = 0) :
    roundHalfEven a b = a / b := by
  unfold roundHalfEven
  rw [h]
  simp [hb]

theorem roundHalfEven_scale (a b k : Nat) (hk : 0 < k) :
    roundHalfEven (a * k) (b * k) = roundHalfEven a b := by
  unfold roundHalfEven
  rw [Nat.mul_div_mul_right a b hk, Nat.mul_mod_mul_right]
  have h1 : 2 * (a % b * k) < b * k ↔ 2 * (a % b) < b := by
    rw [← Nat.mul_assoc]
    exact Nat.mul_lt_mul_right hk
  have h2 : b * k < 2 * (a % b * k) ↔ b < 2 * (a % b) := by
    rw [← Nat.mul_assoc]
    exact Nat.mul_lt_mul_right hk
  simp only [h1, h2]

theorem roundHalfEven_eq_zero_iff (a b : Nat) (hb : 0 < b) :
    roundHalfEven a b = 0 ↔ 2 * a ≤ b := by
  unfold roundHalfEven
  by_cases hab : a < b
  · rw [Nat.div_eq_of_lt hab, Nat.mod_eq_of_lt hab]
    constructor
    · intro h
      split_ifs at h <;> omega
    · intro h
      split_ifs <;> omega
  · have hq : 0 < a / b := Nat.div_pos (not_lt.mp hab) hb
    constructor
    · intro h
      split_ifs at h <;> omega
    · intro h
      omega

theorem roundMag_zero_left (b : Nat) : roundMag 0 b = 0 := by
  unfold roundMag roundHalfEven
  simp

/-- Facts on the rounding of `a / b` when the quotient is in the range of the search. -/
theorem roundMag_aux (a b : Nat) (hq : a / b < 2 ^ 2100) :
    (excessBits (a / b) = 0 ∨ 2 ^ 52 ≤ a / (b * 2 ^ excessBits (a / b))) ∧
      a / (b * 2 ^ excessBits (a / b)) < 2 ^ 53 := by
  have hs := excessBits_spec (a / b) hq
  rw [← Nat.div_div_eq_div_mul]
  constructor
  · rcases hs.1 with h | h
    · exact Or.inl h
    · right
      rw [Nat.le_div_iff_mul_le (two_pow_pos _), ← pow_add]
      exact h
  · rw [Nat.div_lt_iff_lt_mul (two_pow_pos _), ← pow_add]
    exact hs.2

theorem roundMag_le (a b : Nat) (hq : a / b < 2 ^ 2100) : roundMag a b ≤ 2 * (a / b) + 1 := by
  have hs := excessBits_spec (a / b) hq
  have hn := roundHalfEven_le a (b * 2 ^ excessBits (a / b))
  rw [← Nat.div_div_eq_div_mul] at hn
  unfold roundMag
  have h1 : a / b / 2 ^ excessBits (a / b) * 2 ^ excessBits (a / b) ≤ a / b :=
    Nat.div_mul_le_self _ _
  have h2 : 2 ^ excessBits (a / b) ≤ a / b + 1 := by
    rcases hs.1 with h | h
    · rw [h]
      simp
    · exact le_trans (le_trans (two_pow_le (by omega)) h) (Nat.le_succ _)
  calc roundHalfEven a (b * 2 ^ excessBits (a / b)) * 2 ^ excessBits (a / b)
      ≤ (a / b / 2 ^ excessBits (a / b) + 1) * 2 ^ excessBits (a / b) :=
        Nat.mul_le_mul_right _ hn
    _ = a / b / 2 ^ excessBits (a / b) * 2 ^ excessBits (a / b) + 2 ^ excessBits (a / b) := by
        rw [Nat.add_mul, Nat.one_mul]
    _ ≤ 2 * (a / b) + 1 := by omega

/-- The rounded magnitude has at most 53 significant bits and stays below `2 ^ 2100`. -/
theorem roundMag_canonical (a b : Nat) (hq : a / b < huge) :
    roundMag a b ≤ huge ∧ roundMag a b % 2 ^ excessBits (roundMag a b) = 0 := by
  rw [huge_eq] at hq ⊢
  have hq' : a / b < 2 ^ 2100 := lt_trans hq (two_pow_lt (by decide))
  have hs := excessBits_spec (a / b) hq'
  have hx := roundMag_aux a b hq'
  have hge := roundHalfEven_ge a (b * 2 ^ excessBits (a / b))
  have hle := roundHalfEven_le a (b * 2 ^ excessBits (a / b))
  have hj : excessBits (a / b) ≤ 2045 := by
    rcases hs.1 with h | h
    · omega
    · have := lt_of_two_pow_lt (lt_of_le_of_lt h hq)
      omega
  have hn : roundHalfEven a (b * 2 ^ excessBits (a / b)) ≤ 2 ^ 53 := by omega
  have hm : roundMag a b ≤ 2 ^ (53 + excessBits (a / b)) := by
    unfold roundMag
    rw [pow_add]
    exact Nat.mul_le_mul_right _ hn
  have hm' : roundMag a b ≤ 2 ^ 2098 := le_trans hm (two_pow_le (by omega))
  refine ⟨hm', ?_⟩
  have hs' := excessBits_spec (roundMag a b) (lt_of_le_of_lt hm' (two_pow_lt (by decide)))
  by_cases he : excessBits (roundMag a b) ≤ excessBits (a / b)
  · apply Nat.mod_eq_zero_of_dvd
    unfold roundMag
    exact Dvd.dvd.mul_left (pow_dvd_pow 2 he) _
  · have he1 : excessBits (roundMag a b) ≠ 0 := by omega
    have h1 : 2 ^ (52 + excessBits (roundMag a b)) ≤ roundMag a b := by
      rcases hs'.1 with h | h
      · exact absurd h he1
      · exact h
    have h2 : 53 + excessBits (a / b) ≤ 52 + excessBits (roundMag a b) := by omega
    have h3 : roundMag a b = 2 ^ (53 + excessBits (a / b)) :=
      le_antisymm hm (le_trans (two_pow_le h2) h1)
    have h4 : excessBits (roundMag a b) ≤ 53 + excessBits (a / b) := by
      have := lt_of_two_pow_lt (lt_of_le_of_lt h1 (lt_of_le_of_lt hm (two_pow_lt (Nat.lt_succ_self _))))
      omega
    apply Nat.mod_eq_zero_of_dvd
    rw [h3] at *
    exact pow_dvd_pow 2 h4

theorem roundMag_exact (m : Nat) (h : m % 2 ^ excessBits m = 0) :
    roundMag m 1 = m := by
  unfold roundMag
  rw [Nat.div_one, Nat.one_mul, roundHalfEven_of_dvd m _ (two_pow_pos _) h]
  exact Nat.div_mul_cancel (Nat.dvd_of_mod_eq_zero h)

theorem roundMag_scale (a b k : Nat) (hk : 0 < k) : roundMag (a * k) (b * k) = roundMag a b := by
  unfold roundMag
  rw [Nat.mul_div_mul_right a b hk]
  have e : b * k * 2 ^ excessBits (a / b) = b * 2 ^ excessBits (a / b) * k := by ring
  rw [e, roundHalfEven_scale a _ k hk]

theorem roundMag_eq_zero_iff (a b : Nat) (hb : 0 < b) (hq : a / b < huge) :
    roundMag a b = 0 ↔ 2 * a ≤ b := by
  rw [huge_eq] at hq
  have hq' : a / b < 2 ^ 2100 := lt_trans hq (two_pow_lt (by decide))
  constructor
  · intro h
    have hx := roundMag_aux a b hq'
    have hge := roundHalfEven_ge a (b * 2 ^ excessBits (a / b))
    unfold roundMag at h
    rcases Nat.mul_eq_zero.mp h with h0 | h0
    · have hj : excessBits (a / b) = 0 := by
        rcases hx.1 with hj | hj
        · exact hj
        · have := two_pow_pos 52
          omega
      rw [hj, pow_zero, Nat.mul_one] at h0
      exact (roundHalfEven_eq_zero_iff a b hb).mp h0
    · exact absurd h0 (Nat.pos_iff_ne_zero.mp (two_pow_pos _))
  · intro h
    have hab : a < b := by omega
    have hj : excessBits (a / b) = 0 := by
      rw [Nat.div_eq_of_lt hab]
      exact excessBits_of_lt 0 (two_pow_pos 53)
    unfold roundMag
    rw [hj, pow_zero, Nat.mul_one, Nat.mul_one]
    exact (roundHalfEven_eq_zero_iff a b hb).mpr h

/-! ## Lemmas on the raw operations -/

namespace Raw

theorem huge_pos : 0 < huge := by
  rw [huge_eq]
  exact two_pow_pos 2098

theorem bne_symm (s t : Bool) : (s != t) = (t != s) := by
  cases s <;> cases t <;> rfl

theorem round_zero (d : Nat) : round 0 d = fin 0 := by
  have h := huge_pos
  simp [round, roundMag_zero_left, Nat.not_le.mpr h]

theorem round_canonical (n : Int) (d : Nat) : (round n d).canonical = true := by
  unfold round
  split_ifs with h1 h2 h3
  · rfl
  · rfl
  · have hc := roundMag_canonical n.natAbs d (not_le.mp h1)
    simp only [canonical, Int.natAbs_neg, Int.natAbs_ofNat, Bool.and_eq_true, decide_eq_true_eq]
    exact ⟨not_le.mp h2, hc.2⟩
  · have hc := roundMag_canonical n.natAbs d (not_le.mp h1)
    simp only [canonical, Int.natAbs_ofNat, Bool.and_eq_true, decide_eq_true_eq]
    exact ⟨not_le.mp h2, hc.2⟩

theorem neg_round (n : Int) (d : Nat) : (round n d).neg = round (-n) d := by
  rcases lt_trichotomy n 0 with h | h | h
  · have h' : ¬ (-n < 0) := by omega
    unfold round
    simp only [Int.natAbs_neg, h, h', decide_True, decide_False, if_true, if_false]
    split_ifs <;> simp [neg]
  · subst h
    simp [round_zero, neg]
  · have h' : ¬ (n < 0) := by omega
    have h'' : -n < 0 := by omega
    unfold round
    simp only [Int.natAbs_neg, h', h'', decide_True, decide_False, if_true, if_false]
    split_ifs <;> simp [neg]

theorem neg_neg_raw (x : Raw) : x.neg.neg = x := by
  cases x <;> simp [neg]

theorem neg_canonical (x : Raw) (h : x.canonical = true) : x.neg.canonical = true := by
  cases x with
  | nan => rfl
  | inf s => rfl
  | fin v =>
    show (decide ((-v).natAbs < huge) &&
      decide ((-v).natAbs % 2 ^ excessBits (-v).natAbs = 0)) = true
    rw [Int.natAbs_neg]
    exact h

theorem add_canonical (x y : Raw) : (x.add y).canonical = true := by
  cases x with
  | nan => cases y <;> rfl
  | inf s =>
    cases y with
    | nan => rfl
    | inf t =>
      show (if s = t then inf s else nan).canonical = true
      split_ifs <;> rfl
    | fin b => rfl
  | fin a =>
    cases y with
    | nan => rfl
    | inf t => rfl
    | fin b => exact round_canonical _ _

theorem mul_canonical (x y : Raw) : (x.mul y).canonical = true := by
  cases x with
  | nan => cases y <;> rfl
  | inf s =>
    cases y with
    | nan => rfl
    | inf t => rfl
    | fin b =>
      show (if b = 0 then nan else inf (s != decide (b < 0))).canonical = true
      split_ifs <;> rfl
  | fin a =>
    cases y with
    | nan => rfl
    | inf t =>
      show (if a = 0 then nan else inf (decide (a < 0) != t)).canonical = true
      split_ifs <;> rfl
    | fin b => exact round_canonical _ _

theorem canonical_zero : (fin 0).canonical = true := by
  simp [canonical, huge_pos]

theorem div_canonical (x y : Raw) : (x.div y).canonical = true := by
  cases x with
  | nan => cases y <;> rfl
  | inf s => cases y <;> rfl
  | fin a =>
    cases y with
    | nan => rfl
    | inf t => exact canonical_zero
    | fin b =>
      show (if b = 0 then (if a = 0 then nan else inf (decide (a < 0)))
        else round (if b < 0 then -(a * unit) else a * unit) b.natAbs).canonical = true
      split_ifs <;> first | rfl | exact round_canonical _ _

theorem add_comm (x y : Raw) : x.add y = y.add x := by
  cases x with
  | nan => cases y <;> rfl
  | inf s =>
    cases y with
    | nan => rfl
    | inf t =>
      show (if s = t then inf s else nan) = (if t = s then inf t else nan)
      by_cases h : s = t
      · simp [h]
      · have h' : ¬ t = s := fun e => h e.symm
        simp [h, h']
    | fin b => rfl
  | fin a =>
    cases y with
    | nan => rfl
    | inf t => rfl
    | fin b =>
      show round (a + b) 1 = round (b + a) 1
      rw [Int.add_comm]

theorem neg_add (x y : Raw) : (x.add y).neg = x.neg.add y.neg := by
  cases x with
  | nan => cases y <;> rfl
  | inf s =>
    cases y with
    | nan => rfl
    | inf t =>
      show (if s = t then inf s else nan).neg = (if (!s) = (!t) then inf (!s) else nan)
      by_cases h : s = t
      · simp [h, neg]
      · have h' : ¬ (!s) = (!t) := by simpa using h
        simp [h, h', neg]
    | fin b => rfl
  | fin a =>
    cases y with
    | nan => rfl
    | inf t => rfl
    | fin b =>
      show (round (a + b) 1).neg = round (-a + -b) 1
      rw [neg_round]
      congr 1
      omega

theorem mul_comm_raw (x y : Raw) : x.mul y = y.mul x := by
  cases x with
  | nan => cases y <;> rfl
  | inf s =>
    cases y with
    | nan => rfl
    | inf t =>
      show inf (s != t) = inf (t != s)
      rw [bne_symm]
    | fin b =>
      show (if b = 0 then nan else inf (s != decide (b < 0))) =
        (if b = 0 then nan else inf (decide (b < 0) != s))
      rw [bne_symm]
  | fin a =>
    cases y with
    | nan => rfl
    | inf t =>
      show (if a = 0 then nan else inf (decide (a < 0) != t)) =
        (if a = 0 then nan else inf (t != decide (a < 0)))
      rw [bne_symm]
    | fin b =>
      show round (a * b) unit = round (b * a) unit
      rw [Int.mul_comm]

theorem neg_mul_raw (x y : Raw) : x.neg.mul y = (x.mul y).neg := by
  cases x with
  | nan => cases y <;> rfl
  | inf s =>
    cases y with
    | nan => rfl
    | inf t =>
      show inf ((!s) != t) = inf (!(s != t))
      cases s <;> cases t <;> rfl
    | fin b =>
      show (if b = 0 then nan else inf ((!s) != decide (b < 0))) =
        (if b = 0 then nan else inf (s != decide (b < 0))).neg
      split_ifs
      · rfl
      · show _ = inf (!(s != decide (b < 0)))
        cases s <;> cases decide (b < 0) <;> rfl
  | fin a =>
    cases y with
    | nan => rfl
    | inf t =>
      show (if -a = 0 then nan else inf (decide (-a < 0) != t)) =
        (if a = 0 then nan else inf (decide (a < 0) != t)).neg
      by_cases h : a = 0
      · subst h
        simp [neg]
      · have h' : ¬ (-a = 0) := by omega
        simp only [h, h', if_false, neg]
        congr 1
        rcases lt_or_gt_of_ne h with h1 | h1
        · have h2 : ¬ (-a < 0) := by omega
          simp [h1, h2]
        · have h2 : -a < 0 := by omega
          have h3 : ¬ (a < 0) := by omega
          simp [h2, h3]
    | fin b =>
      show round (-a * b) unit = (round (a * b) unit).neg
      rw [neg_round, Int.neg_mul]

theorem mul_neg_raw (x y : Raw) : x.mul y.neg = (x.mul y).neg := by
  rw [mul_comm_raw, neg_mul_raw, mul_comm_raw]

theorem neg_div_raw (x y : Raw) : x.neg.div y = (x.div y).neg := by
  cases x with
  | nan => cases y <;> rfl
  | inf s =>
    cases y with
    | nan => rfl
    | inf t => rfl
    | fin b =>
      show inf ((!s) != decide (b < 0)) = inf (!(s != decide (b < 0)))
      cases s <;> cases decide (b < 0) <;> rfl
  | fin a =>
    cases y with
    | nan => rfl
    | inf t => rfl
    | fin b =>
      show (if b = 0 then (if -a = 0 then nan else inf (decide (-a < 0)))
          else round (if b < 0 then -(-a * unit) else -a * unit) b.natAbs) =
        (if b = 0 then (if a = 0 then nan else inf (decide (a < 0)))
          else round (if b < 0 then -(a * unit) else a * unit) b.natAbs).neg
      by_cases hb : b = 0
      · simp only [hb, if_true]
        by_cases h : a = 0
        · subst h
          simp [neg]
        · have h' : ¬ (-a = 0) := by omega
          simp only [h, h', if_false, neg]
          congr 1
          rcases lt_or_gt_of_ne h with h1 | h1
          · have h2 : ¬ (-a < 0) := by omega
            simp [h1, h2]
          · have h2 : -a < 0 := by omega
            have h3 : ¬ (a < 0) := by omega
            simp [h2, h3]
      · simp only [hb, if_false]
        rw [neg_round]
        congr 1
        split_ifs <;> simp [Int.neg_mul]

theorem round_ne_nan (n : Int) (d : Nat) : round n d ≠ nan := by
  unfold round
  split_ifs <;> simp

theorem round_scale (n : Int) (d k : Nat) (hk : 0 < k) :
    round (n * (k : Int)) (d * k) = round n d := by
  have hk' : (0 : Int) < (k : Int) := by exact_mod_cast hk
  have hs : (n * (k : Int) < 0) ↔ (n < 0) := by
    constructor
    · intro h
      by_contra hc
      exact absurd h (not_lt.mpr (Int.mul_nonneg (not_lt.mp hc) (le_of_lt hk')))
    · intro h
      exact Int.mul_neg_of_neg_of_pos h hk'
  unfold round
  rw [Int.natAbs_mul, Int.natAbs_ofNat, Nat.mul_div_mul_right _ _ hk, roundMag_scale _ _ _ hk]
  simp only [hs]

theorem round_exact (v : Int) (h : (fin v).canonical = true) : round v 1 = fin v := by
  simp only [canonical, Bool.and_eq_true, decide_eq_true_eq] at h
  unfold round
  rw [Nat.div_one, roundMag_exact _ h.2]
  simp only [not_le.mpr h.1, if_false]
  split_ifs with hneg
  · congr 1
    omega
  · congr 1
    omega

/-- A finite result of `round` is at most `2 * q + 1` in magnitude, `q` the integer part of the
rounded quotient. -/
theorem round_of_bound (n : Int) (d : Nat) (hb : 2 * (n.natAbs / d) + 1 < huge) :
    ∃ m : Nat, m ≤ 2 * (n.natAbs / d) + 1 ∧
      round n d = fin (if n < 0 then -(m : Int) else (m : Int)) := by
  have hq : n.natAbs / d < 2 ^ 2100 := by
    have h1 : n.natAbs / d < huge := by omega
    rw [huge_eq] at h1
    exact lt_trans h1 (two_pow_lt (by decide))
  have hm := roundMag_le n.natAbs d hq
  refine ⟨roundMag n.natAbs d, hm, ?_⟩
  unfold round
  have h1 : ¬ huge ≤ n.natAbs / d := by omega
  have h2 : ¬ huge ≤ roundMag n.natAbs d := by omega
  simp only [h1, h2, if_false]
  split_ifs <;> rfl

theorem round_nonpos (n : Int) (d : Nat) (hn : n ≤ 0) :
    round n d = inf true ∨ ∃ m : Nat, round n d = fin (-(m : Int)) := by
  rcases lt_or_eq_of_le hn with h | h
  · unfold round
    simp only [h, decide_True, if_true]
    split_ifs
    · exact Or.inl rfl
    · exact Or.inl rfl
    · exact Or.inr ⟨_, rfl⟩
  · subst h
    right
    exact ⟨0, by simp [round_zero]⟩

theorem round_nonneg (n : Int) (d : Nat) (hn : 0 ≤ n) :
    round n d = inf false ∨ ∃ m : Nat, round n d = fin (m : Int) := by
  have h : ¬ n < 0 := not_lt.mpr hn
  unfold round
  simp only [h, decide_False, if_false]
  split_ifs
  · exact Or.inl rfl
  · exact Or.inl rfl
  · exact Or.inr ⟨_, rfl⟩

theorem round_eq_zero_iff (n : Int) (d : Nat) (hd : 0 < d) (hq : n.natAbs / d < huge) :
    round n d = fin 0 ↔ 2 * n.natAbs ≤ d := by
  rw [← roundMag_eq_zero_iff n.natAbs d hd hq]
  unfold round
  simp only [not_le.mpr hq, if_false]
  split_ifs with h1 h2
  · constructor
    · intro h
      cases h
    · intro h
      rw [h] at h1
      exact absurd h1 (not_le.mpr huge_pos)
  · constructor
    · intro h
      have h' := Raw.fin.inj h
      omega
    · intro h
      rw [h]
      simp
  · constructor
    · intro h
      have h' := Raw.fin.inj h
      omega
    · intro h
      rw [h]
      simp

theorem huge_ge : 1000000000 * unit ≤ huge := by
  rw [huge_eq, unit_eq, show 2098 = 1024 + 1074 from rfl, pow_add]
  apply Nat.mul_le_mul_right
  calc 1000000000 ≤ 2 ^ 30 := by norm_num
    _ ≤ 2 ^ 1024 := two_pow_le (by decide)

theorem canonical_ofNat (k : Nat) (hk : k < 2 ^ 53) :
    (fin ((k : Int) * (unit : Int))).canonical = true := by
  have hm : ((k : Int) * (unit : Int)).natAbs = k * unit := by
    rw [Int.natAbs_mul, Int.natAbs_ofNat, Int.natAbs_ofNat]
  have hlt : k * unit < 2 ^ 1127 := by
    rw [unit_eq, show 1127 = 53 + 1074 from rfl, pow_add]
    exact Nat.mul_lt_mul_of_pos_right hk (two_pow_pos _)
  simp only [canonical, Bool.and_eq_true, decide_eq_true_eq, hm]
  constructor
  · rw [huge_eq]
    exact lt_trans hlt (two_pow_lt (by decide))
  · have hs := excessBits_spec (k * unit) (lt_trans hlt (two_pow_lt (by decide)))
    have he : excessBits (k * unit) ≤ 1074 := by
      rcases hs.1 with h | h
      · omega
      · have := lt_of_two_pow_lt (lt_of_le_of_lt h hlt)
        omega
    apply Nat.mod_eq_zero_of_dvd
    have hd : 2 ^ excessBits (k * unit) ∣ unit := by
      rw [unit_eq] at he ⊢
      exact pow_dvd_pow 2 he
    exact Dvd.dvd.mul_left hd k

theorem round_ofNat (k : Nat) (hk : k < 2 ^ 53) :
    round ((k : Int) * (unit : Int)) 1 = fin ((k : Int) * (unit : Int)) :=
  round_exact _ (canonical_ofNat k hk)

/-- Upper bound on the product of a positive integer constant and a number with a bounded key. -/
theorem mul_const_key_le (c : Nat) (hc : 0 < c) (y : Raw) (ky : Int) (B : Nat)
    (hy : y.key = some ky) (hB : ky ≤ (B : Int)) (hbig : 2 * (c * B) + 1 < huge) :
    ∃ k : Int, ((fin ((c : Int) * (unit : Int))).mul y).key = some k ∧
      k ≤ ((2 * (c * B) + 1 : Nat) : Int) := by
  have hu := unit_pos
  have hcu : (0 : Int) < (c : Int) * (unit : Int) := by positivity
  have hBc : B ≤ c * B := Nat.le_mul_of_pos_left B hc
  cases y with
  | nan => simp [key] at hy
  | inf s =>
    have hne : ¬ ((c : Int) * (unit : Int) = 0) := by omega
    have hnl : ¬ ((c : Int) * (unit : Int) < 0) := by omega
    cases s with
    | true =>
      refine ⟨-(huge : Int), ?_, by omega⟩
      show (if (c : Int) * (unit : Int) = 0 then nan
        else inf (decide ((c : Int) * (unit : Int) < 0) != true)).key = _
      simp [hne, hnl, key]
    | false =>
      exfalso
      simp only [key, Bool.false_eq_true, if_false, Option.some.injEq] at hy
      omega
  | fin v =>
    simp only [key, Option.some.injEq] at hy
    subst hy
    show ∃ k : Int, (round ((c : Int) * (unit : Int) * v) unit).key = some k ∧ _
    by_cases hv : v ≤ 0
    · have hn : (c : Int) * (unit : Int) * v ≤ 0 :=
        Int.mul_nonpos_of_nonneg_of_nonpos (le_of_lt hcu) hv
      rcases round_nonpos _ unit hn with h | ⟨m, h⟩
      · exact ⟨-(huge : Int), by rw [h]; rfl, by omega⟩
      · exact ⟨-(m : Int), by rw [h]; rfl, by omega⟩
    · have hv' : 0 < v := not_le.mp hv
      have hn : ¬ ((c : Int) * (unit : Int) * v < 0) :=
        not_lt.mpr (Int.mul_nonneg (le_of_lt hcu) (le_of_lt hv'))
      have habs : ((c : Int) * (unit : Int) * v).natAbs / unit = c * v.natAbs := by
        rw [Int.natAbs_mul, Int.natAbs_mul, Int.natAbs_ofNat, Int.natAbs_ofNat,
          Nat.mul_right_comm]
        exact Nat.mul_div_cancel _ hu
      have hvB : v.natAbs ≤ B := by omega
      have hq : c * v.natAbs ≤ c * B := Nat.mul_le_mul_left c hvB
      rcases round_of_bound ((c : Int) * (unit : Int) * v) unit (by rw [habs]; omega) with
        ⟨m, hm, h⟩
      rw [habs] at hm
      simp only [hn, if_false] at h
      exact ⟨(m : Int), by rw [h]; rfl, by omega⟩

theorem mul_const_key_nonneg (c : Nat) (hc : 0 < c) (y : Raw) (ky : Int)
    (hy : y.key = some ky) (h0 : 0 ≤ ky) :
    ∃ k : Int, ((fin ((c : Int) * (unit : Int))).mul y).key = some k ∧ 0 ≤ k := by
  have hu := unit_pos
  have hp := huge_pos
  have hcu : (0 : Int) < (c : Int) * (unit : Int) := by positivity
  cases y with
  | nan => simp [key] at hy
  | inf s =>
    have hne : ¬ ((c : Int) * (unit : Int) = 0) := by omega
    have hnl : ¬ ((c : Int) * (unit : Int) < 0) := by omega
    cases s with
    | true =>
      exfalso
      simp only [key, if_true, Option.some.injEq] at hy
      omega
    | false =>
      refine ⟨(huge : Int), ?_, by omega⟩
      show (if (c : Int) * (unit : Int) = 0 then nan
        else inf (decide ((c : Int) * (unit : Int) < 0) != false)).key = _
      simp [hne, hnl, key]
  | fin v =>
    simp only [key, Option.some.injEq] at hy
    subst hy
    show ∃ k : Int, (round ((c : Int) * (unit : Int) * v) unit).key = some k ∧ _
    have hn : 0 ≤ (c : Int) * (unit : Int) * v := Int.mul_nonneg (le_of_lt hcu) h0
    rcases round_nonneg _ unit hn with h | ⟨m, h⟩
    · exact ⟨(huge : Int), by rw [h]; rfl, by omega⟩
    · exact ⟨(m : Int), by rw [h]; rfl, by omega⟩

theorem mul_const_ne_nan (c : Nat) (hc : 0 < c) (y : Raw) (hy : y ≠ nan) :
    (fin ((c : Int) * (unit : Int))).mul y ≠ nan := by
  have hu := unit_pos
  have hcu : (0 : Int) < (c : Int) * (unit : Int) := by positivity
  cases y with
  | nan => exact absurd rfl hy
  | inf s =>
    have hne : ¬ ((c : Int) * (unit : Int) = 0) := by omega
    show (if (c : Int) * (unit : Int) = 0 then nan
      else inf (decide ((c : Int) * (unit : Int) < 0) != s)) ≠ nan
    simp [hne]
  | fin v => exact round_ne_nan _ _

end Raw

/-! ## Lemmas on `float64` -/

namespace float64

theorem ext {x y : float64} (h : x.val = y.val) : x = y := by
  cases x
  cases y
  cases h
  rfl

theorem ofRaw_val (r : Raw) (h : r.canonical = true) : (ofRaw r).val = r := by
  unfold ofRaw
  rw [dif_pos h]

theorem add_val (x y : float64) : (x + y).val = x.val.add y.val :=
  ofRaw_val _ (Raw.add_canonical _ _)

theorem sub_val (x y : float64) : (x - y).val = x.val.add y.val.neg :=
  ofRaw_val _ (Raw.add_canonical _ _)

theorem mul_val (x y : float64) : (x * y).val = x.val.mul y.val :=
  ofRaw_val _ (Raw.mul_canonical _ _)

theorem div_val (x y : float64) : (x / y).val = x.val.div y.val :=
  ofRaw_val _ (Raw.div_canonical _ _)

theorem neg_val (x : float64) : (-x).val = x.val.neg :=
  ofRaw_val _ (Raw.neg_canonical _ x.ok)

theorem ofRat_val (n d : Nat) : (ofRat n d).val = Raw.round ((n : Int) * (unit : Int)) d :=
  ofRaw_val _ (Raw.round_canonical _ _)

theorem ofNat_val (k : Nat) (hk : k < 2 ^ 53) :
    (ofNat k).val = Raw.fin ((k : Int) * (unit : Int)) := by
  unfold ofNat
  rw [ofRat_val, Raw.round_ofNat k hk]

theorem lit_val (k : Nat) (hk : k < 2 ^ 53) :
    (OfNat.ofNat k : float64).val = Raw.fin ((k : Int) * (unit : Int)) :=
  ofNat_val k hk

theorem zero_val : (0 : float64).val = Raw.fin 0 := by
  rw [lit_val 0 (two_pow_pos 53)]
  simp

theorem one_val : (1 : float64).val = Raw.fin (unit : Int) := by
  rw [lit_val 1 (by norm_num)]
  simp

theorem isNaN_iff (x : float64) : x.isNaN = true ↔ x = nan := by
  constructor
  · intro h
    apply ext
    unfold isNaN at h
    cases hx : x.val <;> simp [hx] at h
    rfl
  · intro h
    subst h
    rfl

theorem key_eq_none_iff (x : float64) : x.val.key = none ↔ x.isNaN = true := by
  unfold isNaN
  cases x.val <;> simp [Raw.key]

theorem lt_iff_key (x y : float64) :
    x < y ↔ ∃ a b, x.val.key = some a ∧ y.val.key = some b ∧ a < b := by
  show x.val.lt y.val = true ↔ _
  unfold Raw.lt
  cases hx : x.val.key <;> cases hy : y.val.key <;> simp

theorem le_iff_key (x y : float64) :
    x ≤ y ↔ ∃ a b, x.val.key = some a ∧ y.val.key = some b ∧ a ≤ b := by
  show x.val.le y.val = true ↔ _
  unfold Raw.le
  cases hx : x.val.key <;> cases hy : y.val.key <;> simp

theorem exists_key (x : float64) (h : x.isNaN = false) : ∃ a, x.val.key = some a := by
  cases hk : x.val.key with
  | none =>
    rw [(key_eq_none_iff x).mp hk] at h
    cases h
  | some a => exact ⟨a, rfl⟩

theorem isNaN_of_key (x : float64) (a : Int) (h : x.val.key = some a) : x.isNaN = false := by
  cases hn : x.isNaN with
  | false => rfl
  | true =>
    rw [(key_eq_none_iff x).mpr hn] at h
    cases h

theorem not_nan_of_lt {x y : float64} (h : x < y) : x.isNaN = false ∧ y.isNaN = false := by
  rcases (lt_iff_key x y).mp h with ⟨a, b, ha, hb, _⟩
  exact ⟨isNaN_of_key x a ha, isNaN_of_key y b hb⟩

theorem not_nan_of_le {x y : float64} (h : x ≤ y) : x.isNaN = false ∧ y.isNaN = false := by
  rcases (le_iff_key x y).mp h with ⟨a, b, ha, hb, _⟩
  exact ⟨isNaN_of_key x a ha, isNaN_of_key y b hb⟩

theorem lt_irrefl (x : float64) : ¬ x < x := by
  intro h
  rcases (lt_iff_key x x).mp h with ⟨a, b, ha, hb, hab⟩
  rw [ha] at hb
  cases hb
  omega

theorem lt_trans {x y z : float64} (h1 : x < y) (h2 : y < z) : x < z := by
  rcases (lt_iff_key x y).mp h1 with ⟨a, b, ha, hb, hab⟩
  rcases (lt_iff_key y z).mp h2 with ⟨b', c, hb', hc, hbc⟩
  rw [hb] at hb'
  cases hb'
  exact (lt_iff_key x z).mpr ⟨a, c, ha, hc, by omega⟩

theorem le_of_lt {x y : float64} (h : x < y) : x ≤ y := by
  rcases (lt_iff_key x y).mp h with ⟨a, b, ha, hb, hab⟩
  exact (le_iff_key x y).mpr ⟨a, b, ha, hb, by omega⟩

theorem lt_of_lt_of_le {x y z : float64} (h1 : x < y) (h2 : y ≤ z) : x < z := by
  rcases (lt_iff_key x y).mp h1 with ⟨a, b, ha, hb, hab⟩
  rcases (le_iff_key y z).mp h2 with ⟨b', c, hb', hc, hbc⟩
  rw [hb] at hb'
  cases hb'
  exact (lt_iff_key x z).mpr ⟨a, c, ha, hc, by omega⟩

theorem le_refl (x : float64) (h : x.isNaN = false) : x ≤ x := by
  rcases exists_key x h with ⟨a, ha⟩
  exact (le_iff_key x x).mpr ⟨a, a, ha, ha, by omega⟩

theorem le_of_not_lt {x y : float64} (hx : x.isNaN = false) (hy : y.isNaN = false)
    (h : ¬ x < y) : y ≤ x := by
  rcases exists_key x hx with ⟨a, ha⟩
  rcases exists_key y hy with ⟨b, hb⟩
  refine (le_iff_key y x).mpr ⟨b, a, hb, ha, ?_⟩
  by_contra hc
  exact h ((lt_iff_key x y).mpr ⟨a, b, ha, hb, by omega⟩)

theorem not_lt_of_le {x y : float64} (h : x ≤ y) : ¬ y < x := by
  intro h'
  rcases (le_iff_key x y).mp h with ⟨a, b, ha, hb, hab⟩
  rcases (lt_iff_key y x).mp h' with ⟨b', a', hb', ha', hba⟩
  rw [ha] at ha'
  rw [hb] at hb'
  cases ha'
  cases hb'
  omega

theorem beq_zero (x : float64) : (x == 0) = decide (x = 0) := by
  show x.val.eq (0 : float64).val = _
  rw [zero_val]
  have hp := Raw.huge_pos
  by_cases h : x = 0
  · subst h
    rw [zero_val]
    simp [Raw.eq, Raw.key]
  · have hv : x.val ≠ Raw.fin 0 := by
      intro hc
      apply h
      apply ext
      rw [hc, zero_val]
    simp only [h, decide_False]
    cases hx : x.val with
    | nan => simp [Raw.eq, Raw.key]
    | inf s =>
      cases s <;> simp [Raw.eq, Raw.key] <;> omega
    | fin v =>
      rw [hx] at hv
      have : v ≠ 0 := fun hc => hv (by rw [hc])
      simp [Raw.eq, Raw.key, this]

theorem nan_add (x : float64) : nan + x = nan := by
  apply ext
  rw [add_val]
  cases x.val <;> rfl

theorem add_nan (x : float64) : x + nan = nan := by
  apply ext
  rw [add_val]
  cases x.val <;> rfl

theorem nan_mul (x : float64) : nan * x = nan := by
  apply ext
  rw [mul_val]
  cases x.val <;> rfl

theorem mul_nan (x : float64) : x * nan = nan := by
  apply ext
  rw [mul_val]
  cases x.val <;> rfl

theorem nan_sub (x : float64) : nan - x = nan := by
  apply ext
  rw [sub_val]
  cases x.val <;> rfl

theorem sub_nan (x : float64) : x - nan = nan := by
  apply ext
  rw [sub_val]
  cases x.val <;> rfl

theorem nan_div (x : float64) : nan / x = nan := by
  apply ext
  rw [div_val]
  cases x.val <;> rfl

theorem zero_add (x : float64) : 0 + x = x := by
  apply ext
  rw [add_val, zero_val]
  have hx := x.ok
  cases hv : x.val with
  | nan => rfl
  | inf s => rfl
  | fin v =>
    rw [hv] at hx
    show Raw.round (0 + v) 1 = Raw.fin v
    rw [Int.zero_add, Raw.round_exact v hx]

theorem div_one (x : float64) : x / 1 = x := by
  apply ext
  rw [div_val, one_val]
  have hx := x.ok
  have hu := unit_pos
  have hne : ¬ ((unit : Int) = 0) := by omega
  have hnl : ¬ ((unit : Int) < 0) := by omega
  cases hv : x.val with
  | nan => rfl
  | inf s =>
    show Raw.inf (s != decide ((unit : Int) < 0)) = Raw.inf s
    simp [hnl]
  | fin v =>
    rw [hv] at hx
    show (if (unit : Int) = 0 then (if v = 0 then Raw.nan else Raw.inf (decide (v < 0)))
      else Raw.round (if (unit : Int) < 0 then -(v * (unit : Int)) else v * (unit : Int))
        (unit : Int).natAbs) = Raw.fin v
    simp only [hne, hnl, if_false, Int.natAbs_ofNat]
    have h := Raw.round_scale v 1 unit hu
    rw [Nat.one_mul] at h
    rw [h, Raw.round_exact v hx]

theorem lt_asymm {x y : float64} (h : x < y) : ¬ y < x := fun h' => lt_irrefl x (lt_trans h h')

theorem not_le_of_lt {x y : float64} (h : x < y) : ¬ y ≤ x := fun h' => not_lt_of_le h' h

theorem lt_of_le_of_lt {x y z : float64} (h1 : x ≤ y) (h2 : y < z) : x < z := by
  rcases (le_iff_key x y).mp h1 with ⟨a, b, ha, hb, hab⟩
  rcases (lt_iff_key y z).mp h2 with ⟨b', c, hb', hc, hbc⟩
  rw [hb] at hb'
  cases hb'
  exact (lt_iff_key x z).mpr ⟨a, c, ha, hc, by omega⟩

theorem le_trans {x y z : float64} (h1 : x ≤ y) (h2 : y ≤ z) : x ≤ z := by
  rcases (le_iff_key x y).mp h1 with ⟨a, b, ha, hb, hab⟩
  rcases (le_iff_key y z).mp h2 with ⟨b', c, hb', hc, hbc⟩
  rw [hb] at hb'
  cases hb'
  exact (le_iff_key x z).mpr ⟨a, c, ha, hc, by omega⟩

theorem lt_of_not_le {x y : float64} (hx : x.isNaN = false) (hy : y.isNaN = false)
    (h : ¬ x ≤ y) : y < x := by
  rcases exists_key x hx with ⟨a, ha⟩
  rcases exists_key y hy with ⟨b, hb⟩
  refine (lt_iff_key y x).mpr ⟨b, a, hb, ha, ?_⟩
  by_contra hc
  exact h ((le_iff_key x y).mpr ⟨a, b, ha, hb, by omega⟩)

theorem isNaN_eq_false_iff (x : float64) : x.isNaN = false ↔ x.val ≠ Raw.nan := by
  unfold isNaN
  cases x.val <;> simp

theorem beq_self (x : float64) : (x == x) = !x.isNaN := by
  show x.val.eq x.val = _
  unfold isNaN Raw.eq
  cases x.val <;> simp [Raw.key]

/-! ### Sign symmetries -/

theorem mul_comm (x y : float64) : x * y = y * x := by
  apply ext
  rw [mul_val, mul_val, Raw.mul_comm_raw]

theorem neg_mul (x y : float64) : -x * y = -(x * y) := by
  apply ext
  rw [mul_val, neg_val, neg_val, mul_val, Raw.neg_mul_raw]

theorem mul_neg (x y : float64) : x * -y = -(x * y) := by
  apply ext
  rw [mul_val, neg_val, neg_val, mul_val, Raw.mul_neg_raw]

theorem neg_neg (x : float64) : - -x = x := by
  apply ext
  rw [neg_val, neg_val, Raw.neg_neg_raw]

theorem neg_mul_neg (x y : float64) : -x * -y = x * y := by
  rw [neg_mul, mul_neg, neg_neg]

theorem neg_div (x y : float64) : -x / y = -(x / y) := by
  apply ext
  rw [div_val, neg_val, neg_val, div_val, Raw.neg_div_raw]

theorem sub_swap (x y : float64) : x - y = -(y - x) := by
  apply ext
  rw [sub_val, neg_val, sub_val, Raw.neg_add, Raw.neg_neg_raw, Raw.add_comm]

/-! ### Finite values and zero -/

theorem isFinite_iff (x : float64) : x.isFinite = true ↔ ∃ v, x.val = Raw.fin v := by
  unfold isFinite
  cases x.val <;> simp

theorem eq_zero_iff (x : float64) : x = 0 ↔ x.val = Raw.fin 0 := by
  constructor
  · intro h
    rw [h, zero_val]
  · intro h
    apply ext
    rw [h, zero_val]

theorem sub_self (x : float64) (h : x.isFinite = true) : x - x = 0 := by
  rcases (isFinite_iff x).mp h with ⟨v, hv⟩
  rw [eq_zero_iff, sub_val, hv]
  show Raw.round (v + -v) 1 = Raw.fin 0
  rw [Int.add_right_neg, Raw.round_zero]

theorem mul_zero (x : float64) (h : x.isFinite = true) : x * 0 = 0 := by
  rcases (isFinite_iff x).mp h with ⟨v, hv⟩
  rw [eq_zero_iff, mul_val, hv, zero_val]
  show Raw.round (v * 0) unit = Raw.fin 0
  rw [Int.mul_zero, Raw.round_zero]

theorem zero_mul (x : float64) (h : x.isFinite = true) : 0 * x = 0 := by
  rw [mul_comm, mul_zero x h]

theorem zero_div_lit (k : Nat) (hk0 : 0 < k) (hk : k < 2 ^ 53) :
    (0 : float64) / (OfNat.ofNat k : float64) = 0 := by
  have hu := unit_pos
  have hne : ¬ ((k : Int) * (unit : Int) = 0) := by positivity
  rw [eq_zero_iff, div_val, zero_val, lit_val k hk]
  show (if (k : Int) * (unit : Int) = 0 then (if (0 : Int) = 0 then Raw.nan
      else Raw.inf (decide ((0 : Int) < 0)))
    else Raw.round (if (k : Int) * (unit : Int) < 0 then -(0 * (unit : Int))
      else 0 * (unit : Int)) ((k : Int) * (unit : Int)).natAbs) = Raw.fin 0
  simp only [hne, if_false]
  split_ifs <;> simp [Raw.round_zero]

theorem isFinite_of_isFinite_mul_left (x y : float64) (hy : ∃ v, y.val = Raw.fin v ∧ v ≠ 0)
    (h : (x * y).isFinite = true) : x.isFinite = true := by
  rcases hy with ⟨v, hv, hv0⟩
  rcases (isFinite_iff _).mp h with ⟨w, hw⟩
  rw [mul_val, hv] at hw
  rw [isFinite_iff]
  cases hx : x.val with
  | nan =>
    rw [hx] at hw
    cases hw
  | inf s =>
    rw [hx] at hw
    have : (Raw.inf s).mul (Raw.fin v) = Raw.inf (s != decide (v < 0)) := by
      show (if v = 0 then Raw.nan else Raw.inf (s != decide (v < 0))) = _
      simp [hv0]
    rw [this] at hw
    cases hw
  | fin a => exact ⟨a, rfl⟩

theorem div_180_finite (x : float64) (h : x.isFinite = true) : (x / 180).isFinite = true := by
  have hu := unit_pos
  have hx := x.ok
  rcases (isFinite_iff x).mp h with ⟨v, hv⟩
  rw [hv] at hx
  simp only [Raw.canonical, Bool.and_eq_true, decide_eq_true_eq] at hx
  have hne : ¬ (((180 : Nat) : Int) * (unit : Int) = 0) := by positivity
  have hnl : ¬ (((180 : Nat) : Int) * (unit : Int) < 0) := not_lt.mpr (by positivity)
  have hg := Raw.huge_ge
  rw [isFinite_iff, div_val, hv, lit_val 180 (by norm_num)]
  show ∃ w, (if ((180 : Nat) : Int) * (unit : Int) = 0 then (if v = 0 then Raw.nan
      else Raw.inf (decide (v < 0)))
    else Raw.round (if ((180 : Nat) : Int) * (unit : Int) < 0 then -(v * (unit : Int))
      else v * (unit : Int)) (((180 : Nat) : Int) * (unit : Int)).natAbs) = Raw.fin w
  simp only [hne, hnl, if_false]
  have e : (((180 : Nat) : Int) * (unit : Int)).natAbs = 180 * unit := by
    rw [Int.natAbs_mul, Int.natAbs_ofNat, Int.natAbs_ofNat]
  rw [e, Raw.round_scale v 180 unit hu]
  rcases Raw.round_of_bound v 180 (by omega) with ⟨m, _, hm⟩
  exact ⟨_, hm⟩


theorem lit_key (k : Nat) (hk : k < 2 ^ 53) :
    (OfNat.ofNat k : float64).val.key = some ((k : Int) * (unit : Int)) := by
  rw [lit_val k hk]
  rfl

theorem mul_lit_isNaN (k : Nat) (hk0 : 0 < k) (hk : k < 2 ^ 53) (y : float64) :
    ((OfNat.ofNat k : float64) * y).isNaN = y.isNaN := by
  cases hy : y.isNaN with
  | true =>
    rw [(isNaN_iff y).mp hy, mul_nan]
    rfl
  | false =>
    rw [isNaN_eq_false_iff] at hy ⊢
    rw [mul_val, lit_val k hk]
    exact Raw.mul_const_ne_nan k hk0 _ hy

/-- The result of `6371 * (2 * a)` for `a ≤ 4` is below `10000000`. -/
theorem scaled_lt (a : float64) (h : a ≤ 4) : (6371 : float64) * (2 * a) < 10000000 := by
  have hu := unit_pos
  have hg := Raw.huge_ge
  rcases (le_iff_key a 4).mp h with ⟨ka, k4, hka, hk4, hle⟩
  rw [lit_key 4 (by norm_num), Option.some.injEq] at hk4
  subst hk4
  rcases Raw.mul_const_key_le 2 (by norm_num) a.val ka (4 * unit) hka (by push_cast; omega)
    (by omega) with ⟨k1, hk1, hle1⟩
  have e1 : (2 * a).val = (Raw.fin (((2 : Nat) : Int) * (unit : Int))).mul a.val := by
    rw [mul_val, lit_val 2 (by norm_num)]
  rcases Raw.mul_const_key_le 6371 (by norm_num) (2 * a).val k1 (2 * (2 * (4 * unit)) + 1)
    (by rw [e1]; exact hk1) hle1 (by omega) with ⟨k2, hk2, hle2⟩
  have e2 : ((6371 : float64) * (2 * a)).val =
      (Raw.fin (((6371 : Nat) : Int) * (unit : Int))).mul (2 * a).val := by
    rw [mul_val, lit_val 6371 (by norm_num)]
  refine (lt_iff_key _ _).mpr ⟨k2, _, by rw [e2]; exact hk2, lit_key 10000000 (by norm_num), ?_⟩
  push_cast at hle2 ⊢
  omega

theorem scaled_nonneg (a : float64) (h : 0 ≤ a) : 0 ≤ (6371 : float64) * (2 * a) := by
  rcases (le_iff_key 0 a).mp h with ⟨k0, ka, hk0, hka, hle⟩
  rw [zero_val] at hk0
  simp only [Raw.key, Option.some.injEq] at hk0
  subst hk0
  rcases Raw.mul_const_key_nonneg 2 (by norm_num) a.val ka hka hle with ⟨k1, hk1, hle1⟩
  have e1 : (2 * a).val = (Raw.fin (((2 : Nat) : Int) * (unit : Int))).mul a.val := by
    rw [mul_val, lit_val 2 (by norm_num)]
  rcases Raw.mul_const_key_nonneg 6371 (by norm_num) (2 * a).val k1 (by rw [e1]; exact hk1) hle1
    with ⟨k2, hk2, hle2⟩
  have e2 : ((6371 : float64) * (2 * a)).val =
      (Raw.fin (((6371 : Nat) : Int) * (unit : Int))).mul (2 * a).val := by
    rw [mul_val, lit_val 6371 (by norm_num)]
  refine (le_iff_key _ _).mpr ⟨0, k2, by rw [zero_val]; rfl, by rw [e2]; exact hk2, hle2⟩

theorem scaled_isNaN (a : float64) : ((6371 : float64) * (2 * a)).isNaN = a.isNaN := by
  rw [mul_lit_isNaN 6371 (by norm_num) (by norm_num), mul_lit_isNaN 2 (by norm_num) (by norm_num)]

theorem neg_one_val : (-1 : float64).val = Raw.fin (-(unit : Int)) := by
  rw [neg_val, one_val]
  rfl

/-- The product of two numbers of `[-1, 1]` is finite. -/
theorem mul_unit_range_finite (a b : float64) (ha : -1 ≤ a ∧ a ≤ 1) (hb : -1 ≤ b ∧ b ≤ 1) :
    (a * b).isFinite = true := by
  have hu := unit_pos
  have hg := Raw.huge_ge
  have hfin : ∀ x : float64, -1 ≤ x → x ≤ 1 → ∃ v : Int, x.val = Raw.fin v ∧ v.natAbs ≤ unit := by
    intro x h1 h2
    rcases (le_iff_key _ _).mp h1 with ⟨k1, kx, hk1, hkx, hle1⟩
    rcases (le_iff_key _ _).mp h2 with ⟨kx', k2, hkx', hk2, hle2⟩
    rw [neg_one_val] at hk1
    rw [one_val] at hk2
    simp only [Raw.key, Option.some.injEq] at hk1 hk2
    subst hk1
    subst hk2
    rw [hkx, Option.some.injEq] at hkx'
    subst hkx'
    cases hx : x.val with
    | nan =>
      rw [hx] at hkx
      simp [Raw.key] at hkx
    | inf s =>
      rw [hx] at hkx
      simp only [Raw.key, Option.some.injEq] at hkx
      cases s <;> simp at hkx <;> omega
    | fin v =>
      rw [hx] at hkx
      simp only [Raw.key, Option.some.injEq] at hkx
      exact ⟨v, rfl, by omega⟩
  rcases hfin a ha.1 ha.2 with ⟨va, hva, hla⟩
  rcases hfin b hb.1 hb.2 with ⟨vb, hvb, hlb⟩
  rw [isFinite_iff, mul_val, hva, hvb]
  show ∃ w, Raw.round (va * vb) unit = Raw.fin w
  have hq : (va * vb).natAbs / unit ≤ unit := by
    rw [Int.natAbs_mul]
    apply Nat.div_le_of_le_mul
    exact Nat.mul_le_mul hla hlb
  rcases Raw.round_of_bound (va * vb) unit (by omega) with ⟨m, _, hm⟩
  exact ⟨_, hm⟩

/-- A quotient by a positive integer below `2 ^ 53` is zero exactly when the dividend is finite
and at most half the divisor, in units of `2 ^ (-1074)`. -/
theorem div_ofNat_eq_zero_iff (x : float64) (k : Nat) (hk0 : 0 < k) (hk : k < 2 ^ 53) :
    x / ofNat k = 0 ↔ ∃ v : Int, x.val = Raw.fin v ∧ 2 * v.natAbs ≤ k := by
  have hu := unit_pos
  have hx := x.ok
  have hne : ¬ ((k : Int) * (unit : Int) = 0) := by positivity
  have hnl : ¬ ((k : Int) * (unit : Int) < 0) := not_lt.mpr (by positivity)
  rw [eq_zero_iff, div_val, ofNat_val k hk]
  cases hv : x.val with
  | nan =>
    constructor
    · intro h
      cases h
    · rintro ⟨v, h, _⟩
      cases h
  | inf s =>
    constructor
    · intro h
      cases h
    · rintro ⟨v, h, _⟩
      cases h
  | fin v =>
    rw [hv] at hx
    simp only [Raw.canonical, Bool.and_eq_true, decide_eq_true_eq] at hx
    show (if (k : Int) * (unit : Int) = 0 then (if v = 0 then Raw.nan
        else Raw.inf (decide (v < 0)))
      else Raw.round (if (k : Int) * (unit : Int) < 0 then -(v * (unit : Int))
        else v * (unit : Int)) ((k : Int) * (unit : Int)).natAbs) = Raw.fin 0 ↔ _
    simp only [hne, hnl, if_false]
    have e : ((k : Int) * (unit : Int)).natAbs = k * unit := by
      rw [Int.natAbs_mul, Int.natAbs_ofNat, Int.natAbs_ofNat]
    have hq : v.natAbs / k < huge := Nat.lt_of_le_of_lt (Nat.div_le_self _ _) hx.1
    rw [e, Raw.round_scale v k unit hu, Raw.round_eq_zero_iff v k hk0 hq]
    constructor
    · intro h
      exact ⟨v, rfl, h⟩
    · rintro ⟨w, hw, h⟩
      cases hw
      exact h

end float64

theorem Pi_val : Pi.val = Raw.fin (884279719003555 * 2 ^ 1026) := by decide!

/-! ## Facts about `IsZero`, `Distance` and `Nearest` -/

theorem Location.IsZero_eq_true_iff (l : Location) :
    l.IsZero = true ↔ l.Latitude = 0 ∧ l.Longitude = 0 := by
  simp [Location.IsZero, float64.beq_zero]

theorem Location.IsZero_zeroLocation : zeroLocation.IsZero = true := by
  rw [Location.IsZero_eq_true_iff]
  exact ⟨rfl, rfl⟩

theorem Location.Distance_left_zero (M : MathLib) (l m : Location)
    (hl : l.IsZero = true) : l.Distance M m = MAX_DISTANCE := by
  simp [Location.Distance, hl]

theorem Location.Distance_right_zero (M : MathLib) (l m : Location)
    (hm : m.IsZero = true) : l.Distance M m = MAX_DISTANCE := by
  simp [Location.Distance, hm]

theorem Location.Distance_valid (M : MathLib) (l m : Location)
    (hl : l.IsZero = false) (hm : m.IsZero = false) :
    l.Distance M m =
      6371 * (2 * M.Atan2 (M.Sqrt (l.haversineTerm M m)) (M.Sqrt (1 - l.haversineTerm M m))) := by
  simp [Location.Distance, Location.haversineTerm, hl, hm]

theorem MAX_DISTANCE_eq : MAX_DISTANCE = 10000000 := rfl

theorem zero_lt_MAX_DISTANCE : (0 : float64) < MAX_DISTANCE := by decide!

/-! ## The loop of `Nearest` -/

theorem Location.nearestLoop_spec (M : MathLib) (l : Location) (rest : List Location) :
    ∀ (i : Nat) (st : NearestState),
      (Location.nearestLoop M l rest i st = st ∧
        ∀ c ∈ rest, c.IsZero = false → ¬ l.Distance M c < st.minDistance) ∨
      (∃ k c, rest[k]? = some c ∧ c.IsZero = false ∧
        Location.nearestLoop M l rest i st = ⟨l.Distance M c, ((i + k : Nat) : Int), some c⟩ ∧
        l.Distance M c < st.minDistance ∧
        (∀ c' ∈ rest, c'.IsZero = false → ¬ l.Distance M c' < l.Distance M c) ∧
        (∀ j c', j < k → rest[j]? = some c' → c'.IsZero = false →
          ¬ l.Distance M c' ≤ l.Distance M c)) := by
  induction rest with
  | nil =>
    intro i st
    left
    simp [Location.nearestLoop]
  | cons loc rest ih =>
    intro i st
    by_cases hz : loc.IsZero = true
    · -- the `continue` branch
      have hstep : Location.nearestLoop M l (loc :: rest) i st =
          Location.nearestLoop M l rest (i + 1) st := by
        simp [Location.nearestLoop, hz]
      rw [hstep]
      rcases ih (i + 1) st with ⟨heq, hall⟩ | ⟨k, c, hk, hc, heq, hlt, hmin, hfirst⟩
      · left
        refine ⟨heq, ?_⟩
        intro c hc hcz
        rcases List.mem_cons.mp hc with rfl | hc
        · rw [hz] at hcz; cases hcz
        · exact hall c hc hcz
      · right
        refine ⟨k + 1, c, by simpa using hk, hc, ?_, hlt, ?_, ?_⟩
        · rw [heq]; simp [Nat.add_assoc, Nat.add_comm 1 k]
        · intro c' hc' hcz'
          rcases List.mem_cons.mp hc' with rfl | hc'
          · rw [hz] at hcz'; cases hcz'
          · exact hmin c' hc' hcz'
        · intro j c' hj hjc hcz'
          cases j with
          | zero =>
            simp at hjc
            subst hjc
            rw [hz] at hcz'; cases hcz'
          | succ j =>
            simp at hjc
            exact hfirst j c' (by omega) hjc hcz'
    · have hz' : loc.IsZero = false := by simpa using hz
      by_cases hd : l.Distance M loc < st.minDistance
      · have hstep : Location.nearestLoop M l (loc :: rest) i st =
            Location.nearestLoop M l rest (i + 1) ⟨l.Distance M loc, (i : Int), some loc⟩ := by
          simp [Location.nearestLoop, hz', hd]
        rw [hstep]
        right
        rcases ih (i + 1) ⟨l.Distance M loc, (i : Int), some loc⟩ with
          ⟨heq, hall⟩ | ⟨k, c, hk, hc, heq, hlt, hmin, hfirst⟩
        · refine ⟨0, loc, by simp, hz', ?_, hd, ?_, ?_⟩
          · rw [heq]; simp
          · intro c' hc' hcz'
            rcases List.mem_cons.mp hc' with rfl | hc'
            · exact float64.lt_irrefl _
            · exact hall c' hc' hcz'
          · intro j c' hj
            omega
        · refine ⟨k + 1, c, by simpa using hk, hc, ?_, float64.lt_trans hlt hd, ?_, ?_⟩
          · rw [heq]; simp [Nat.add_assoc, Nat.add_comm 1 k]
          · intro c' hc' hcz'
            rcases List.mem_cons.mp hc' with rfl | hc'
            · exact float64.lt_asymm hlt
            · exact hmin c' hc' hcz'
          · intro j c' hj hjc hcz'
            cases j with
            | zero =>
              simp at hjc
              subst hjc
              exact float64.not_le_of_lt hlt
            | succ j =>
              simp at hjc
              exact hfirst j c' (by omega) hjc hcz'
      · have hstep : Location.nearestLoop M l (loc :: rest) i st =
            Location.nearestLoop M l rest (i + 1) st := by
          simp [Location.nearestLoop, hz', hd]
        rw [hstep]
        rcases ih (i + 1) st with ⟨heq, hall⟩ | ⟨k, c, hk, hc, heq, hlt, hmin, hfirst⟩
        · left
          refine ⟨heq, ?_⟩
          intro c hc hcz
          rcases List.mem_cons.mp hc with rfl | hc
          · exact hd
          · exact hall c hc hcz
        · right
          refine ⟨k + 1, c, by simpa using hk, hc, ?_, hlt, ?_, ?_⟩
          · rw [heq]; simp [Nat.add_assoc, Nat.add_comm 1 k]
          · intro c' hc' hcz'
            rcases List.mem_cons.mp hc' with rfl | hc'
            · exact fun h => hd (float64.lt_trans h hlt)
            · exact hmin c' hc' hcz'
          · intro j c' hj hjc hcz'
            cases j with
            | zero =>
              simp at hjc
              subst hjc
              exact fun h => hd (float64.lt_of_le_of_lt h hlt)
            | succ j =>
              simp at hjc
              exact hfirst j c' (by omega) hjc hcz'

theorem Location.Nearest_spec (M : MathLib) (l : Location) (cs : List Location) :
    (l.Nearest M cs = (-1, zeroLocation) ∧
      ∀ c ∈ cs, c.IsZero = false → ¬ l.Distance M c < MAX_DISTANCE) ∨
    (∃ k c, cs[k]? = some c ∧ c.IsZero = false ∧
      l.Nearest M cs = (((k : Nat) : Int), c) ∧
      l.Distance M c < MAX_DISTANCE ∧
      (∀ c' ∈ cs, c'.IsZero = false → ¬ l.Distance M c' < l.Distance M c) ∧
      (∀ j c', j < k → cs[j]? = some c' → c'.IsZero = false →
        ¬ l.Distance M c' ≤ l.Distance M c)) := by
  by_cases hlen : cs.length = 0
  · left
    have hnil : cs = [] := List.length_eq_zero.mp hlen
    subst hnil
    simp [Location.Nearest]
  · rcases Location.nearestLoop_spec M l cs 0 ⟨MAX_DISTANCE, 0, none⟩ with
      ⟨heq, hall⟩ | ⟨k, c, hk, hc, heq, hlt, hmin, hfirst⟩
    · left
      refine ⟨?_, hall⟩
      simp [Location.Nearest, hlen, heq]
    · right
      refine ⟨k, c, hk, hc, ?_, hlt, hmin, hfirst⟩
      simp [Location.Nearest, hlen, heq]

/-! ## `Distance` on valid points -/

theorem Location.Distance_isNaN (M : MathLib) (l m : Location)
    (hl : l.IsZero = false) (hm : m.IsZero = false) :
    (l.Distance M m).isNaN =
      (M.Atan2 (M.Sqrt (l.haversineTerm M m)) (M.Sqrt (1 - l.haversineTerm M m))).isNaN := by
  rw [Location.Distance_valid M l m hl hm, float64.scaled_isNaN]

theorem Location.Distance_lt_MAX (M : MathLib)
    (hat : ∀ y x, (M.Atan2 y x).isNaN = true ∨ M.Atan2 y x ≤ 4)
    (l m : Location) (hl : l.IsZero = false) (hm : m.IsZero = false)
    (hn : (l.Distance M m).isNaN = false) : l.Distance M m < MAX_DISTANCE := by
  rw [Location.Distance_isNaN M l m hl hm] at hn
  rw [Location.Distance_valid M l m hl hm, MAX_DISTANCE_eq]
  rcases hat (M.Sqrt (l.haversineTerm M m)) (M.Sqrt (1 - l.haversineTerm M m)) with h | h
  · rw [h] at hn
    cases hn
  · exact float64.scaled_lt _ h

theorem Location.haversineTerm_comm (M : MathLib) (hsin : ∀ x, M.Sin (-x) = -M.Sin x)
    (l m : Location) : l.haversineTerm M m = m.haversineTerm M l := by
  have hswap : ∀ a b : float64, (a - b) * Pi / 180 / 2 = -((b - a) * Pi / 180 / 2) := by
    intro a b
    rw [float64.sub_swap a b, float64.neg_mul, float64.neg_div, float64.neg_div]
  unfold Location.haversineTerm
  rw [hswap l.Latitude m.Latitude, hswap l.Longitude m.Longitude, hsin, hsin,
    float64.neg_mul_neg, float64.mul_neg, float64.mul_neg, float64.neg_mul, float64.neg_neg,
    float64.mul_comm (M.Cos (m.Latitude * Pi / 180))]

theorem Pi_ne_zero : ∃ v, Pi.val = Raw.fin v ∧ v ≠ 0 :=
  ⟨_, Pi_val, by decide!⟩

theorem degToRad_zero : (0 : float64) * Pi / 180 / 2 = 0 := by decide!

theorem zero_mul_zero : (0 : float64) * 0 = 0 := by decide!

theorem zero_add_zero : (0 : float64) + 0 = 0 := by decide!

theorem one_sub_zero : (1 : float64) - 0 = 1 := by decide!

theorem scaled_zero : (6371 : float64) * (2 * 0) = 0 := by decide!

theorem Location.haversineTerm_self (M : MathLib) (hM : M.ZeroCases) (p : Location)
    (hlat : (p.Latitude * Pi).isFinite = true) (hlon : p.Longitude.isFinite = true) :
    p.haversineTerm M p = 0 := by
  have hlat' : p.Latitude.isFinite = true :=
    float64.isFinite_of_isFinite_mul_left _ _ Pi_ne_zero hlat
  have hc := hM.Cos_range _ (float64.div_180_finite _ hlat)
  unfold Location.haversineTerm
  rw [float64.sub_self _ hlat', float64.sub_self _ hlon, degToRad_zero, hM.Sin_zero,
    zero_mul_zero, float64.mul_zero _ (float64.mul_unit_range_finite _ _ hc hc), zero_mul_zero,
    zero_add_zero]

theorem Location.Distance_same_point (M : MathLib) (hM : M.ZeroCases) (p : Location)
    (hp : p.IsZero = false) (hlat : (p.Latitude * Pi).isFinite = true)
    (hlon : p.Longitude.isFinite = true) : p.Distance M p = 0 := by
  rw [Location.Distance_valid M p p hp hp, Location.haversineTerm_self M hM p hlat hlon,
    hM.Sqrt_zero, one_sub_zero, hM.Sqrt_one, hM.Atan2_zero_one, scaled_zero]

/-- `Distance` is NaN when the latitude of the first point overflows in `degToRad`. -/
theorem Location.Distance_nan_of_lat_inf (M : MathLib) (hM : M.NaNCases) (l m : Location)
    (hl : l.IsZero = false) (hm : m.IsZero = false) (s : Bool)
    (hlat : l.Latitude * Pi / 180 = float64.inf s) : l.Distance M m = float64.nan := by
  have hh : l.haversineTerm M m = float64.nan := by
    unfold Location.haversineTerm
    rw [hlat, hM.Cos_inf, float64.nan_mul, float64.nan_mul, float64.nan_mul, float64.add_nan]
  rw [Location.Distance_valid M l m hl hm, hh, hM.Sqrt_nan, hM.Atan2_nan, float64.mul_nan,
    float64.mul_nan]

/-- `Distance` is NaN when the difference of the latitudes overflows in `degToRad`. -/
theorem Location.Distance_nan_of_dLat_inf (M : MathLib) (hM : M.NaNCases) (l m : Location)
    (hl : l.IsZero = false) (hm : m.IsZero = false) (s : Bool)
    (hd : (m.Latitude - l.Latitude) * Pi / 180 / 2 = float64.inf s) :
    l.Distance M m = float64.nan := by
  have hh : l.haversineTerm M m = float64.nan := by
    unfold Location.haversineTerm
    rw [hd, hM.Sin_inf, float64.nan_mul, float64.nan_add]
  rw [Location.Distance_valid M l m hl hm, hh, hM.Sqrt_nan, hM.Atan2_nan, float64.mul_nan,
    float64.mul_nan]

/-! ## The stand-in for the `math` package satisfies the hypotheses -/

theorem float64.neg_zero : -(0 : float64) = 0 := by decide!

theorem float64.neg_nan : -float64.nan = float64.nan := by decide!

theorem float64.isFinite_neg (x : float64) : (-x).isFinite = x.isFinite := by
  unfold float64.isFinite
  rw [float64.neg_val]
  cases x.val <;> rfl

theorem stubMath_Sin_neg (x : float64) : stubMath.Sin (-x) = -stubMath.Sin x := by
  show (if (-x).isFinite = true then (if -x * -x ≤ 1 then -x else 0) else float64.nan) =
    -(if x.isFinite = true then (if x * x ≤ 1 then x else 0) else float64.nan)
  rw [float64.isFinite_neg, float64.neg_mul_neg]
  split_ifs
  · rfl
  · exact float64.neg_zero.symm
  · exact float64.neg_nan.symm

theorem stubMath_zeroCases : stubMath.ZeroCases where
  Sin_zero := by decide!
  Cos_range := by
    intro x hx
    show -1 ≤ (if x.isFinite = true then (1 : float64) else float64.nan) ∧
      (if x.isFinite = true then (1 : float64) else float64.nan) ≤ 1
    rw [if_pos hx]
    exact ⟨by decide!, by decide!⟩
  Sqrt_zero := by decide!
  Sqrt_one := by decide!
  Atan2_zero_one := by decide!

theorem stubMath_nanCases : stubMath.NaNCases where
  Sin_inf := by
    intro s
    cases s <;> decide!
  Cos_inf := by
    intro s
    cases s <;> decide!
  Sqrt_nan := by decide!
  Atan2_nan := by
    intro x
    rfl

theorem stubMath_Atan2_le (y x : float64) :
    (stubMath.Atan2 y x).isNaN = true ∨ stubMath.Atan2 y x ≤ 4 := by
  show (if (y.isNaN || x.isNaN) = true then float64.nan
      else if 0 < y then (if y ≤ 1 then y else 1)
      else if y < 0 then (if -1 ≤ y then y else -1)
      else 0).isNaN = true ∨
    (if (y.isNaN || x.isNaN) = true then float64.nan
      else if 0 < y then (if y ≤ 1 then y else 1)
      else if y < 0 then (if -1 ≤ y then y else -1)
      else 0) ≤ 4
  split_ifs with h1 h2 h3 h4 h5
  · exact Or.inl rfl
  · exact Or.inr (float64.le_trans h3 (by decide!))
  · exact Or.inr (by decide!)
  · exact Or.inr (float64.le_of_lt (float64.lt_trans h4 (by decide!)))
  · exact Or.inr (by decide!)
  · exact Or.inr (by decide!)

theorem stubMath_Atan2_range (y x : float64) (hy : 0 ≤ y) :
    (stubMath.Atan2 y x).isNaN = true ∨ (0 ≤ stubMath.Atan2 y x ∧ stubMath.Atan2 y x ≤ 4) := by
  show (if (y.isNaN || x.isNaN) = true then float64.nan
      else if 0 < y then (if y ≤ 1 then y else 1)
      else if y < 0 then (if -1 ≤ y then y else -1)
      else 0).isNaN = true ∨
    (0 ≤ (if (y.isNaN || x.isNaN) = true then float64.nan
      else if 0 < y then (if y ≤ 1 then y else 1)
      else if y < 0 then (if -1 ≤ y then y else -1)
      else 0) ∧
    (if (y.isNaN || x.isNaN) = true then float64.nan
      else if 0 < y then (if y ≤ 1 then y else 1)
      else if y < 0 then (if -1 ≤ y then y else -1)
      else 0) ≤ 4)
  split_ifs with h1 h2 h3 h4 h5
  · exact Or.inl rfl
  · exact Or.inr ⟨hy, float64.le_trans h3 (by decide!)⟩
  · exact Or.inr ⟨by decide!, by decide!⟩
  · exact absurd h4 (float64.not_lt_of_le hy)
  · exact absurd h4 (float64.not_lt_of_le hy)
  · exact Or.inr ⟨by decide!, by decide!⟩

theorem stubMath_Sqrt_nonneg (x : float64) :
    (stubMath.Sqrt x).isNaN = true ∨ 0 ≤ stubMath.Sqrt x := by
  show (if x < 0 then float64.nan else x).isNaN = true ∨ 0 ≤ (if x < 0 then float64.nan else x)
  split_ifs with h
  · exact Or.inl rfl
  · cases hx : x.isNaN with
    | true => exact Or.inl rfl
    | false => exact Or.inr (float64.le_of_not_lt hx (by decide!) h)

/-! ## Claims on `Location.Nearest` -/

/-- C1, amended.  When `Nearest` returns an index `i ≥ 0`, the candidate `cs[i]` is valid,
its distance from `ref` is a number (not NaN) below `MAX_DISTANCE`, and among the valid
candidates whose distance from `ref` is not NaN it is the first of least distance: for every
valid `cs[j]`, `Distance(ref, cs[j])` is NaN or `Distance(ref, cs[i]) <= Distance(ref, cs[j])`,
and for every valid `cs[j]` with `j < i`, `Distance(ref, cs[j])` is NaN or
`Distance(ref, cs[i]) < Distance(ref, cs[j])`.  This holds for every `math` package `M`. -/
theorem Nearest_first_minimum (M : MathLib) (ref : Location) (cs : List Location)
    (i : Nat) (h : (ref.Nearest M cs).1 = (i : Int)) :
    ∃ c, cs[i]? = some c ∧ c.IsZero = false ∧
      (ref.Distance M c).isNaN = false ∧ ref.Distance M c < MAX_DISTANCE ∧
      (∀ (j : Nat) c', cs[j]? = some c' → c'.IsZero = false →
        (ref.Distance M c').isNaN = true ∨ ref.Distance M c ≤ ref.Distance M c') ∧
      (∀ (j : Nat) c', j < i → cs[j]? = some c' → c'.IsZero = false →
        (ref.Distance M c').isNaN = true ∨ ref.Distance M c < ref.Distance M c') := by
  rcases Location.Nearest_spec M ref cs with
    ⟨heq, _⟩ | ⟨k, c, hk, hc, heq, hlt, hmin, hfirst⟩
  · rw [heq] at h
    simp only at h
    omega
  · rw [heq] at h
    have hki : k = i := by
      simp only at h
      omega
    subst hki
    have hn := (float64.not_nan_of_lt hlt).1
    refine ⟨c, hk, hc, hn, hlt, ?_, ?_⟩
    · intro j c' hj hcz
      cases hn' : (ref.Distance M c').isNaN with
      | true => exact Or.inl rfl
      | false => exact Or.inr (float64.le_of_not_lt hn' hn (hmin c' (List.getElem?_mem hj) hcz))
    · intro j c' hjk hj hcz
      cases hn' : (ref.Distance M c').isNaN with
      | true => exact Or.inl rfl
      | false => exact Or.inr (float64.lt_of_not_le hn' hn (hfirst j c' hjk hj hcz))

/-- Witness of C1, amended: reference `(35, 139)`, candidates
`[(0, 0), (40, 116), (37, 127), (37, 127)]` and the returned index `2`, the first of the two
equal candidates of least distance. -/
theorem Nearest_first_minimum_witness :
    ∃ c, [(⟨0, 0⟩ : Location), ⟨40, 116⟩, ⟨37, 127⟩, ⟨37, 127⟩][2]? = some c ∧
      c.IsZero = false ∧
      (Location.Distance stubMath ⟨35, 139⟩ c).isNaN = false ∧
      Location.Distance stubMath ⟨35, 139⟩ c < MAX_DISTANCE ∧
      (∀ (j : Nat) c', [(⟨0, 0⟩ : Location), ⟨40, 116⟩, ⟨37, 127⟩, ⟨37, 127⟩][j]? = some c' →
        c'.IsZero = false →
        (Location.Distance stubMath ⟨35, 139⟩ c').isNaN = true ∨
          Location.Distance stubMath ⟨35, 139⟩ c ≤ Location.Distance stubMath ⟨35, 139⟩ c') ∧
      (∀ (j : Nat) c', j < 2 →
        [(⟨0, 0⟩ : Location), ⟨40, 116⟩, ⟨37, 127⟩, ⟨37, 127⟩][j]? = some c' →
        c'.IsZero = false →
        (Location.Distance stubMath ⟨35, 139⟩ c').isNaN = true ∨
          Location.Distance stubMath ⟨35, 139⟩ c < Location.Distance stubMath ⟨35, 139⟩ c') :=
  Nearest_first_minimum stubMath ⟨35, 139⟩ [⟨0, 0⟩, ⟨40, 116⟩, ⟨37, 127⟩, ⟨37, 127⟩] 2
    (by decide!)

/-- Counterexample to C1 as stated.  For the reference `(1, 1)` and the candidates
`[(1e308, 1), (1, 1)]`, both valid, `Nearest` returns index `1`, and neither
`Distance(ref, cs[1]) <= Distance(ref, cs[0])` nor `Distance(ref, cs[0]) > Distance(ref, cs[1])`
holds: `Distance(ref, cs[0])` is NaN, because `(1e308 - 1) * math.Pi` overflows to `+Inf` and
`math.Sin(+Inf)` is NaN.  This holds for every `math` package with the documented special
cases. -/
theorem Nearest_passes_over_nan_distance :
    (⟨1e308, 1⟩ : Location).IsZero = false ∧
      ∀ M : MathLib, M.ZeroCases → M.NaNCases →
        (Location.Nearest M ⟨1, 1⟩ [⟨1e308, 1⟩, ⟨1, 1⟩]).1 = 1 ∧
        ¬ (Location.Distance M ⟨1, 1⟩ ⟨1, 1⟩ ≤
            Location.Distance M ⟨1, 1⟩ ⟨1e308, 1⟩) ∧
        ¬ (Location.Distance M ⟨1, 1⟩ ⟨1, 1⟩ <
            Location.Distance M ⟨1, 1⟩ ⟨1e308, 1⟩) := by
  refine ⟨by decide!, ?_⟩
  intro M hZ hN
  have h1 : Location.Distance M ⟨1, 1⟩ ⟨1e308, 1⟩ = float64.nan :=
    Location.Distance_nan_of_dLat_inf M hN _ _ (by decide!) (by decide!) false (by decide!)
  have h2 : Location.Distance M ⟨1, 1⟩ ⟨1, 1⟩ = 0 :=
    Location.Distance_same_point M hZ _ (by decide!) (by decide!) (by decide!)
  have h3 : ¬ (float64.nan < MAX_DISTANCE) := by decide!
  have h4 : (⟨1e308, 1⟩ : Location).IsZero = false := by decide!
  have h5 : (⟨1, 1⟩ : Location).IsZero = false := by decide!
  refine ⟨?_, ?_, ?_⟩
  · simp [Location.Nearest, Location.nearestLoop, h1, h2, h3, h4, h5, zero_lt_MAX_DISTANCE]
  · rw [h1, h2]
    decide!
  · rw [h1, h2]
    decide!

/-- C2.  If the candidate list is empty, or every candidate is unknown `(0, 0)`, or the
reference point is unknown, then `Nearest` returns the not-found result: index `-1` with
the unknown point `(0, 0)`.  This holds for every `math` package `M`. -/
theorem Nearest_not_found (M : MathLib) (ref : Location) (cs : List Location)
    (h : cs = [] ∨ (∀ c ∈ cs, c.IsZero = true) ∨ ref.IsZero = true) :
    ref.Nearest M cs = (-1, (⟨0, 0⟩ : Location)) := by
  rcases Location.Nearest_spec M ref cs with
    ⟨heq, _⟩ | ⟨k, c, hk, hc, _, hlt, _, _⟩
  · exact heq
  · exfalso
    have hmem : c ∈ cs := List.getElem?_mem hk
    rcases h with hnil | hall | href
    · rw [hnil] at hmem
      simp at hmem
    · rw [hall c hmem] at hc
      cases hc
    · rw [Location.Distance_left_zero M ref c href] at hlt
      exact float64.lt_irrefl _ hlt

/-- Witness of C2: a zero reference point with two valid candidates. -/
theorem Nearest_not_found_witness :
    Location.Nearest stubMath (⟨0, 0⟩ : Location) [⟨40, 116⟩, ⟨37, 127⟩] = (-1, ⟨0, 0⟩) :=
  Nearest_not_found stubMath ⟨0, 0⟩ [⟨40, 116⟩, ⟨37, 127⟩] (Or.inr (Or.inr (by decide!)))

/-- Counterexample to C3 as stated.  The reference `(1e308, 1)` and the only candidate
`(5, 5)` are valid, and `Nearest` returns the not-found result `(-1, (0, 0))`: the distance
between the two is NaN (`1e308 * math.Pi` overflows to `+Inf`, and `math.Cos(+Inf)` is NaN),
and `NaN < MAX_DISTANCE` is false.  This holds for every `math` package with the documented
special cases. -/
theorem Nearest_misses_valid_candidate :
    (⟨1e308, 1⟩ : Location).IsZero = false ∧ (⟨5, 5⟩ : Location).IsZero = false ∧
      ∀ M : MathLib, M.NaNCases →
        Location.Nearest M ⟨1e308, 1⟩ [⟨5, 5⟩] = (-1, ⟨0, 0⟩) := by
  refine ⟨by decide!, by decide!, ?_⟩
  intro M hN
  have h1 : Location.Distance M ⟨1e308, 1⟩ ⟨5, 5⟩ = float64.nan :=
    Location.Distance_nan_of_lat_inf M hN _ _ (by decide!) (by decide!) false (by decide!)
  have h3 : ¬ (float64.nan < MAX_DISTANCE) := by decide!
  have h4 : (⟨5, 5⟩ : Location).IsZero = false := by decide!
  simp [Location.Nearest, Location.nearestLoop, h1, h3, h4, zeroLocation]

/-- C3, amended.  For a valid reference point `ref` and a candidate list with at least one
valid candidate whose distance from `ref` is not NaN, `Nearest` returns an index `i` with
`0 <= i < len(cs)`, never the not-found result, and the returned point is closer than
`MAX_DISTANCE`.  The hypothesis on `M` is the upper half of the range of `math.Atan2`: a
result is NaN or at most `4` (it is at most `π`). -/
theorem Nearest_found (M : MathLib)
    (hat : ∀ y x, (M.Atan2 y x).isNaN = true ∨ M.Atan2 y x ≤ 4) (ref : Location)
    (cs : List Location) (href : ref.IsZero = false)
    (hex : ∃ c ∈ cs, c.IsZero = false ∧ (ref.Distance M c).isNaN = false) :
    ∃ i : Nat, i < cs.length ∧ (ref.Nearest M cs).1 = (i : Int) ∧
      ref.Distance M (ref.Nearest M cs).2 < MAX_DISTANCE := by
  rcases Location.Nearest_spec M ref cs with
    ⟨_, hall⟩ | ⟨k, c, hk, hc, heq, hlt, _, _⟩
  · exfalso
    rcases hex with ⟨c, hc, hcz, hn⟩
    exact hall c hc hcz (Location.Distance_lt_MAX M hat ref c href hcz hn)
  · refine ⟨k, ?_, ?_, ?_⟩
    · rcases List.getElem?_eq_some.mp hk with ⟨hlen, _⟩
      exact hlen
    · rw [heq]
    · rw [heq]
      exact hlt

/-- Witness of C3, amended: reference `(35, 139)` and candidates `[(0, 0), (40, 116)]`. -/
theorem Nearest_found_witness :
    ∃ i : Nat, i < [(⟨0, 0⟩ : Location), ⟨40, 116⟩].length ∧
      (Location.Nearest stubMath ⟨35, 139⟩ [⟨0, 0⟩, ⟨40, 116⟩]).1 = (i : Int) ∧
      Location.Distance stubMath ⟨35, 139⟩
          (Location.Nearest stubMath ⟨35, 139⟩ [⟨0, 0⟩, ⟨40, 116⟩]).2 < MAX_DISTANCE :=
  Nearest_found stubMath stubMath_Atan2_le ⟨35, 139⟩ [⟨0, 0⟩, ⟨40, 116⟩] (by decide!)
    ⟨⟨40, 116⟩, by simp, by decide!, by decide!⟩

/-- C4.  The result of `Nearest` is either the not-found result `(-1, (0, 0))` or
`(i, cs[i])` for an index `i` of a valid (non-zero) candidate `cs[i]`; and the returned point
is the zero point exactly when the returned index is `-1`.  This holds for every `math` package
`M`. -/
theorem Nearest_returns_candidate (M : MathLib) (ref : Location) (cs : List Location) :
    (ref.Nearest M cs = (-1, (⟨0, 0⟩ : Location)) ∨
      ∃ (i : Nat) (c : Location), cs[i]? = some c ∧ c.IsZero = false ∧
        ref.Nearest M cs = ((i : Int), c)) ∧
    ((ref.Nearest M cs).2.IsZero = true ↔ (ref.Nearest M cs).1 = -1) := by
  rcases Location.Nearest_spec M ref cs with
    ⟨heq, _⟩ | ⟨k, c, hk, hc, heq, _, _, _⟩
  · refine ⟨Or.inl heq, ?_⟩
    rw [heq]
    simp [Location.IsZero_zeroLocation]
  · refine ⟨Or.inr ⟨k, c, hk, hc, heq⟩, ?_⟩
    rw [heq]
    simp only [hc]
    constructor
    · intro hfalse
      cases hfalse
    · intro hneg
      omega

/-! ## Claims on `Location.Distance` -/

/-- C5.  For every point `p` (unknown or not) and every unknown point `u` (both
coordinates `0`), `Distance` returns exactly the sentinel `10000000`, in either argument
order.  This holds for every `math` package `M`. -/
theorem Distance_unknown (M : MathLib) (p u : Location) (hlat : u.Latitude = 0)
    (hlon : u.Longitude = 0) :
    p.Distance M u = 10000000 ∧ u.Distance M p = 10000000 :=
  ⟨Location.Distance_right_zero M p u ((Location.IsZero_eq_true_iff u).mpr ⟨hlat, hlon⟩),
    Location.Distance_left_zero M u p ((Location.IsZero_eq_true_iff u).mpr ⟨hlat, hlon⟩)⟩

/-- Witness of C5: the point `(35, 139)` and the unknown point `(0, 0)`. -/
theorem Distance_unknown_witness :
    Location.Distance stubMath ⟨35, 139⟩ ⟨0, 0⟩ = 10000000 ∧
      Location.Distance stubMath ⟨0, 0⟩ ⟨35, 139⟩ = 10000000 :=
  Distance_unknown stubMath ⟨35, 139⟩ ⟨0, 0⟩ rfl rfl

/-- Counterexample to C6 as stated.  The points `(1e308, 2)` and `(3, 4)` are valid, and
`Distance(p, q) == Distance(q, p)` is false: both distances are NaN (`1e308 * math.Pi`
overflows to `+Inf`), and NaN is not equal to itself.  This holds for every `math` package with
the documented special cases. -/
theorem Distance_not_equal_to_swapped :
    (⟨1e308, 2⟩ : Location).IsZero = false ∧ (⟨3, 4⟩ : Location).IsZero = false ∧
      ∀ M : MathLib, M.NaNCases →
        (Location.Distance M ⟨1e308, 2⟩ ⟨3, 4⟩ == Location.Distance M ⟨3, 4⟩ ⟨1e308, 2⟩) =
          false := by
  refine ⟨by decide!, by decide!, ?_⟩
  intro M hN
  have h1 : Location.Distance M ⟨1e308, 2⟩ ⟨3, 4⟩ = float64.nan :=
    Location.Distance_nan_of_lat_inf M hN _ _ (by decide!) (by decide!) false (by decide!)
  have h2 : Location.Distance M ⟨3, 4⟩ ⟨1e308, 2⟩ = float64.nan :=
    Location.Distance_nan_of_dLat_inf M hN _ _ (by decide!) (by decide!) false (by decide!)
  rw [h1, h2]
  decide!

/-- C6, amended.  For valid points `p` and `q`, `Distance(p, q)` and `Distance(q, p)` are
the same value, and Go's comparison `Distance(p, q) == Distance(q, p)` is true exactly when
that value is not NaN.  The hypothesis on `M` is that `math.Sin` is odd, `Sin(-x) = -Sin(x)`. -/
theorem Distance_symm (M : MathLib) (hsin : ∀ x, M.Sin (-x) = -M.Sin x)
    (p q : Location) (hp : p.IsZero = false) (hq : q.IsZero = false) :
    p.Distance M q = q.Distance M p ∧
      (p.Distance M q == q.Distance M p) = !(p.Distance M q).isNaN := by
  have h : p.Distance M q = q.Distance M p := by
    rw [Location.Distance_valid M p q hp hq, Location.Distance_valid M q p hq hp,
      Location.haversineTerm_comm M hsin p q]
  refine ⟨h, ?_⟩
  rw [← h, float64.beq_self]

/-- Witness of C6, amended: the points `(35, 139)` and `(40, 116)`. -/
theorem Distance_symm_witness :
    Location.Distance stubMath ⟨35, 139⟩ ⟨40, 116⟩ = Location.Distance stubMath ⟨40, 116⟩ ⟨35, 139⟩ ∧
      (Location.Distance stubMath ⟨35, 139⟩ ⟨40, 116⟩ ==
          Location.Distance stubMath ⟨40, 116⟩ ⟨35, 139⟩) =
        !(Location.Distance stubMath ⟨35, 139⟩ ⟨40, 116⟩).isNaN :=
  Distance_symm stubMath stubMath_Sin_neg ⟨35, 139⟩ ⟨40, 116⟩ (by decide!) (by decide!)

/-- Counterexample to C7 as stated.  The point `(1e308, 1)` is valid and its distance to
itself is NaN, so `Distance(p, p) == 0` is false: `1e308 * math.Pi` overflows to `+Inf` and
`math.Cos(+Inf)` is NaN.  This holds for every `math` package with the documented special
cases. -/
theorem Distance_to_itself_nan :
    (⟨1e308, 1⟩ : Location).IsZero = false ∧
      ∀ M : MathLib, M.NaNCases →
        Location.Distance M ⟨1e308, 1⟩ ⟨1e308, 1⟩ = float64.nan ∧
        (Location.Distance M ⟨1e308, 1⟩ ⟨1e308, 1⟩ == 0) = false := by
  refine ⟨by decide!, ?_⟩
  intro M hN
  have h1 : Location.Distance M ⟨1e308, 1⟩ ⟨1e308, 1⟩ = float64.nan :=
    Location.Distance_nan_of_lat_inf M hN _ _ (by decide!) (by decide!) false (by decide!)
  rw [h1]
  exact ⟨rfl, by decide!⟩

/-- C7, amended.  For a valid point `p` whose longitude is finite and whose latitude times
`math.Pi` is finite (no overflow in `degToRad`), the distance from `p` to itself is `0`, and
Go's comparison `Distance(p, p) == 0` is true.  The hypothesis on `M` lists the values
`Sin(0) = 0`, `Sqrt(0) = 0`, `Sqrt(1) = 1`, `Atan2(0, 1) = 0` and the range of `Cos`. -/
theorem Distance_self (M : MathLib) (hM : M.ZeroCases) (p : Location)
    (hp : p.IsZero = false) (hlat : (p.Latitude * Pi).isFinite = true)
    (hlon : p.Longitude.isFinite = true) :
    p.Distance M p = 0 ∧ (p.Distance M p == 0) = true := by
  have h := Location.Distance_same_point M hM p hp hlat hlon
  rw [h]
  exact ⟨rfl, by decide!⟩

/-- Witness of C7, amended: the point `(35, 139)`. -/
theorem Distance_self_witness :
    Location.Distance stubMath ⟨35, 139⟩ ⟨35, 139⟩ = 0 ∧
      (Location.Distance stubMath ⟨35, 139⟩ ⟨35, 139⟩ == 0) = true :=
  Distance_self stubMath stubMath_zeroCases ⟨35, 139⟩ (by decide!) (by decide!) (by decide!)

/-- Counterexample to C8 as stated.  The points `(-1e308, 7)` and `(8, 9)` are valid, and
neither `0 <= Distance(p, q)` nor `Distance(p, q) <= 10000000` holds: the distance is NaN
(`-1e308 * math.Pi` overflows to `-Inf`, and `math.Cos(-Inf)` is NaN).  This holds for every
`math` package with the documented special cases. -/
theorem Distance_out_of_bounds :
    (⟨-1e308, 7⟩ : Location).IsZero = false ∧ (⟨8, 9⟩ : Location).IsZero = false ∧
      ∀ M : MathLib, M.NaNCases →
        ¬ (0 ≤ Location.Distance M ⟨-1e308, 7⟩ ⟨8, 9⟩) ∧
        ¬ (Location.Distance M ⟨-1e308, 7⟩ ⟨8, 9⟩ ≤ 10000000) := by
  refine ⟨by decide!, by decide!, ?_⟩
  intro M hN
  have h1 : Location.Distance M ⟨-1e308, 7⟩ ⟨8, 9⟩ = float64.nan :=
    Location.Distance_nan_of_lat_inf M hN _ _ (by decide!) (by decide!) true (by decide!)
  rw [h1]
  exact ⟨by decide!, by decide!⟩

/-- C8, amended.  For valid points `p` and `q`, `Distance(p, q)` is NaN or lies in
`[0, 10000000]`.  The hypotheses on `M` are ranges of Go's functions, each allowing NaN:
`math.Sqrt` returns NaN or a number `>= 0`; `math.Atan2(NaN, x)` is NaN; and for `y >= 0`,
`math.Atan2(y, x)` is NaN or in `[0, 4]` (it is in `[0, π]`). -/
theorem Distance_bounds (M : MathLib)
    (hsqrt : ∀ x, (M.Sqrt x).isNaN = true ∨ 0 ≤ M.Sqrt x)
    (hnan : ∀ x, M.Atan2 float64.nan x = float64.nan)
    (hatan : ∀ y x, 0 ≤ y → (M.Atan2 y x).isNaN = true ∨ (0 ≤ M.Atan2 y x ∧ M.Atan2 y x ≤ 4))
    (p q : Location) (hp : p.IsZero = false) (hq : q.IsZero = false) :
    (p.Distance M q).isNaN = true ∨
      (0 ≤ p.Distance M q ∧ p.Distance M q ≤ 10000000) := by
  rw [Location.Distance_isNaN M p q hp hq, Location.Distance_valid M p q hp hq]
  rcases hsqrt (p.haversineTerm M q) with hs | hs
  · left
    rw [(float64.isNaN_iff _).mp hs, hnan]
    rfl
  · rcases hatan _ (M.Sqrt (1 - p.haversineTerm M q)) hs with ha | ha
    · exact Or.inl ha
    · exact Or.inr ⟨float64.scaled_nonneg _ ha.1, float64.le_of_lt (float64.scaled_lt _ ha.2)⟩

/-- Witness of C8, amended: the points `(35, 139)` and `(40, -74)`. -/
theorem Distance_bounds_witness :
    (Location.Distance stubMath ⟨35, 139⟩ ⟨40, -74⟩).isNaN = true ∨
      (0 ≤ Location.Distance stubMath ⟨35, 139⟩ ⟨40, -74⟩ ∧
        Location.Distance stubMath ⟨35, 139⟩ ⟨40, -74⟩ ≤ 10000000) :=
  Distance_bounds stubMath stubMath_Sqrt_nonneg stubMath_nanCases.Atan2_nan stubMath_Atan2_range
    ⟨35, 139⟩ ⟨40, -74⟩ (by decide!) (by decide!)

/-- Counterexample to C9 as stated.  The reference `(1e308, 1)` is valid, and in the list
`[(0, 0), (1e308, 1)]` exactly one candidate is valid and equals the reference; `Nearest`
returns the not-found result `(-1, (0, 0))`, because the distance of the reference to itself
is NaN.  This holds for every `math` package with the documented special cases. -/
theorem Nearest_misses_copy_of_reference :
    (⟨1e308, 1⟩ : Location).IsZero = false ∧ (⟨0, 0⟩ : Location).IsZero = true ∧
      ∀ M : MathLib, M.NaNCases →
        Location.Nearest M ⟨1e308, 1⟩ [⟨0, 0⟩, ⟨1e308, 1⟩] = (-1, ⟨0, 0⟩) := by
  refine ⟨by decide!, by decide!, ?_⟩
  intro M hN
  have h1 : Location.Distance M ⟨1e308, 1⟩ ⟨1e308, 1⟩ = float64.nan :=
    Location.Distance_nan_of_lat_inf M hN _ _ (by decide!) (by decide!) false (by decide!)
  have h3 : ¬ (float64.nan < MAX_DISTANCE) := by decide!
  have h4 : (⟨1e308, 1⟩ : Location).IsZero = false := by decide!
  have h5 : (⟨0, 0⟩ : Location).IsZero = true := by decide!
  simp [Location.Nearest, Location.nearestLoop, h1, h3, h4, h5, zeroLocation]

/-- C9, amended.  For a valid reference point `ref` whose longitude is finite and whose
latitude times `math.Pi` is finite, and a candidate list in which position `k` holds `ref`
and every other candidate is unknown, `Nearest` returns index `k` with the point `ref`, and
the returned point is at distance `0` from `ref`.  The hypothesis on `M` is that of C7. -/
theorem Nearest_single_valid (M : MathLib) (hM : M.ZeroCases) (ref : Location)
    (cs : List Location) (k : Nat) (href : ref.IsZero = false)
    (hlat : (ref.Latitude * Pi).isFinite = true) (hlon : ref.Longitude.isFinite = true)
    (hk : cs[k]? = some ref)
    (hothers : ∀ (j : Nat) c, j ≠ k → cs[j]? = some c → c.IsZero = true) :
    ref.Nearest M cs = ((k : Int), ref) ∧ ref.Distance M (ref.Nearest M cs).2 = 0 := by
  have hself : ref.Distance M ref = 0 := Location.Distance_same_point M hM ref href hlat hlon
  have hres : ref.Nearest M cs = ((k : Int), ref) := by
    rcases Location.Nearest_spec M ref cs with
      ⟨_, hall⟩ | ⟨k', c, hk', hc, heq, _, _, _⟩
    · exfalso
      have h := hall ref (List.getElem?_mem hk) href
      rw [hself] at h
      exact h zero_lt_MAX_DISTANCE
    · have hkk : k' = k := by
        by_contra hne
        rw [hothers k' c hne hk'] at hc
        cases hc
      subst hkk
      rw [hk] at hk'
      cases hk'
      exact heq
  refine ⟨hres, ?_⟩
  rw [hres]
  exact hself

/-- Witness of C9, amended: reference `(35, 139)` in the list
`[(0, 0), (35, 139), (0, 0)]`. -/
theorem Nearest_single_valid_witness :
    Location.Nearest stubMath (⟨35, 139⟩ : Location) [⟨0, 0⟩, ⟨35, 139⟩, ⟨0, 0⟩] =
        (1, ⟨35, 139⟩) ∧
      Location.Distance stubMath ⟨35, 139⟩
        (Location.Nearest stubMath (⟨35, 139⟩ : Location) [⟨0, 0⟩, ⟨35, 139⟩, ⟨0, 0⟩]).2 = 0 :=
  Nearest_single_valid stubMath stubMath_zeroCases ⟨35, 139⟩ [⟨0, 0⟩, ⟨35, 139⟩, ⟨0, 0⟩] 1
    (by decide!) (by decide!) (by decide!) (by simp) (by
      intro j c hj hc
      match j, hj, hc with
      | 0, _, hc =>
        simp at hc
        subst hc
        decide!
      | 1, hj, _ => exact absurd rfl hj
      | 2, _, hc =>
        simp at hc
        subst hc
        decide!
      | (n + 3), _, hc => simp at hc)

/-! ## Claims on `AverageLocation` -/

theorem averageLoop_map_some (ls : List Location) :
    ∀ (sumLat sumLon : float64) (num : Nat),
      averageLoop (ls.map some) sumLat sumLon num =
        some (((ls.filter (fun p => !p.IsZero)).map Location.Latitude).foldl
            (fun s x => s + x) sumLat,
          ((ls.filter (fun p => !p.IsZero)).map Location.Longitude).foldl
            (fun s x => s + x) sumLon,
          num + (ls.filter (fun p => !p.IsZero)).length) := by
  induction ls with
  | nil =>
    intro sumLat sumLon num
    simp [averageLoop]
  | cons loc rest ih =>
    intro sumLat sumLon num
    by_cases hz : loc.IsZero = true
    · simp [averageLoop, hz, ih]
    · have hz' : loc.IsZero = false := by simpa using hz
      simp [averageLoop, hz', ih, Nat.add_assoc, Nat.add_comm 1]

theorem AverageLocation_of_valid (ls : List Location) (h : ∃ p ∈ ls, p.IsZero = false) :
    0 < (ls.filter (fun p => !p.IsZero)).length ∧
    AverageLocation (ls.map some) =
      some ⟨float64.sum ((ls.filter (fun p => !p.IsZero)).map Location.Latitude) /
          float64.ofNat (ls.filter (fun p => !p.IsZero)).length,
        float64.sum ((ls.filter (fun p => !p.IsZero)).map Location.Longitude) /
          float64.ofNat (ls.filter (fun p => !p.IsZero)).length⟩ := by
  rcases h with ⟨p, hp, hpz⟩
  have hmem : p ∈ ls.filter (fun p => !p.IsZero) := by
    simp [List.mem_filter, hp, hpz]
  have hlen : (ls.filter (fun p => !p.IsZero)).length ≠ 0 := by
    intro h0
    rw [List.length_eq_zero.mp h0] at hmem
    simp at hmem
  have hne : ls ≠ [] := List.ne_nil_of_mem hp
  refine ⟨Nat.pos_of_ne_zero hlen, ?_⟩
  simp [AverageLocation, averageLoop_map_some, hlen, hne, float64.sum]

/-- C10.  For every list of (non-nil) points with at least one valid point, `AverageLocation`
returns the point whose latitude is the sum of the latitudes of the valid points divided by
their number, and whose longitude is the same for the longitudes; the unknown points
contribute neither to the sums nor to the count.  Sum and quotient are those of `float64`: the
sum is accumulated from `0` in list order and rounded at every addition (`float64.sum`), the
number of valid points is converted to `float64`, and the quotient is rounded. -/
theorem AverageLocation_valid_mean (ls : List Location)
    (h : ∃ p ∈ ls, p.IsZero = false) :
    AverageLocation (ls.map some) =
      some ⟨float64.sum ((ls.filter (fun p => !p.IsZero)).map Location.Latitude) /
          float64.ofNat (ls.filter (fun p => !p.IsZero)).length,
        float64.sum ((ls.filter (fun p => !p.IsZero)).map Location.Longitude) /
          float64.ofNat (ls.filter (fun p => !p.IsZero)).length⟩ :=
  (AverageLocation_of_valid ls h).2

/-- Witness of C10: the list `[(1, 2), (0, 0), (3, 4), (5, 9)]`, with one unknown point. -/
theorem AverageLocation_valid_mean_witness :
    AverageLocation ([(⟨1, 2⟩ : Location), ⟨0, 0⟩, ⟨3, 4⟩, ⟨5, 9⟩].map some) =
      some ⟨float64.sum (([(⟨1, 2⟩ : Location), ⟨0, 0⟩, ⟨3, 4⟩, ⟨5, 9⟩].filter
            (fun p => !p.IsZero)).map Location.Latitude) /
          float64.ofNat ([(⟨1, 2⟩ : Location), ⟨0, 0⟩, ⟨3, 4⟩, ⟨5, 9⟩].filter
            (fun p => !p.IsZero)).length,
        float64.sum (([(⟨1, 2⟩ : Location), ⟨0, 0⟩, ⟨3, 4⟩, ⟨5, 9⟩].filter
            (fun p => !p.IsZero)).map Location.Longitude) /
          float64.ofNat ([(⟨1, 2⟩ : Location), ⟨0, 0⟩, ⟨3, 4⟩, ⟨5, 9⟩].filter
            (fun p => !p.IsZero)).length⟩ :=
  AverageLocation_valid_mean [⟨1, 2⟩, ⟨0, 0⟩, ⟨3, 4⟩, ⟨5, 9⟩] ⟨⟨1, 2⟩, by simp, by decide!⟩

/-- C11.  For every list of (non-nil) points that is empty or consists only of unknown
points, `AverageLocation` returns the unknown point `(0, 0)`; the loop ends with `num = 0` (and
both sums `0`), so the function returns at one of its two guards, before the division. -/
theorem AverageLocation_all_unknown (ls : List Location)
    (h : ∀ p ∈ ls, p.IsZero = true) :
    AverageLocation (ls.map some) = some (⟨0, 0⟩ : Location) ∧
      averageLoop (ls.map some) (0 : float64) 0 0 = some (0, 0, 0) := by
  have hfil : ls.filter (fun p => !p.IsZero) = [] := by
    rw [List.filter_eq_nil_iff]
    intro p hp
    simp [h p hp]
  have hloop : averageLoop (ls.map some) (0 : float64) 0 0 = some (0, 0, 0) := by
    rw [averageLoop_map_some, hfil]
    simp
  refine ⟨?_, hloop⟩
  unfold AverageLocation
  rw [hloop]
  simp [zeroLocation]

/-- Witness of C11: two zero points. -/
theorem AverageLocation_all_unknown_witness :
    AverageLocation ([(⟨0, 0⟩ : Location), ⟨0, 0⟩].map some) = some (⟨0, 0⟩ : Location) ∧
      averageLoop ([(⟨0, 0⟩ : Location), ⟨0, 0⟩].map some) (0 : float64) 0 0 =
        some (0, 0, 0) :=
  AverageLocation_all_unknown [⟨0, 0⟩, ⟨0, 0⟩] (by decide!)

/-- C12.  For every valid point `p`, `AverageLocation` of the one-element list `[p]`
returns a point equal to `p` in both coordinates: `0 + x` is `x` and `x / 1` is `x` for
every `float64`, NaN included (the coordinate then is NaN in `p` and in the result). -/
theorem AverageLocation_singleton (p : Location) (hp : p.IsZero = false) :
    AverageLocation [some p] = some p := by
  have h1 : float64.ofNat 1 = 1 := rfl
  simp [AverageLocation, averageLoop, hp, float64.zero_add, h1, float64.div_one]

/-- Witness of C12: the point `(35, 139)`. -/
theorem AverageLocation_singleton_witness :
    AverageLocation [some (⟨35, 139⟩ : Location)] = some ⟨35, 139⟩ :=
  AverageLocation_singleton ⟨35, 139⟩ (by decide!)

/-- Counterexample to C19 as stated.  The points `(1, 5)` and `(-1, -5)` are valid and their
average is the unknown point `(0, 0)`, because both sums are `0`; and the points `(5e-324, 0)`
and `(0, 5e-324)` are valid and their average is `(0, 0)` too, because `5e-324 / 2` rounds
to `0`. -/
theorem AverageLocation_valid_inputs_zero_average :
    (⟨1, 5⟩ : Location).IsZero = false ∧ (⟨-1, -5⟩ : Location).IsZero = false ∧
      AverageLocation [some (⟨1, 5⟩ : Location), some ⟨-1, -5⟩] = some ⟨0, 0⟩ ∧
      (⟨5e-324, 0⟩ : Location).IsZero = false ∧ (⟨0, 5e-324⟩ : Location).IsZero = false ∧
      AverageLocation [some (⟨5e-324, 0⟩ : Location), some ⟨0, 5e-324⟩] = some ⟨0, 0⟩ ∧
      (⟨0, 0⟩ : Location).IsZero = true := by
  decide!

/-- C19, amended.  For every list of (non-nil) points, fewer than `2 ^ 53`, with at least
one valid point, `AverageLocation` returns a point, and that point is the unknown point
`(0, 0)` exactly when both quotients round to zero: with `n` the number of valid points, both
sums (`float64.sum`, rounded at every addition) are finite and of magnitude at most
`n / 2 * 2 ^ (-1074)`, that is `2 * |a| <= n` and `2 * |b| <= n` for the sums `a` and `b` in
units of `2 ^ (-1074)`.  In particular the result is `(0, 0)` whenever both sums are `0`. -/
theorem AverageLocation_isZero_iff (ls : List Location)
    (h : ∃ p ∈ ls, p.IsZero = false) (hlen : ls.length < 2 ^ 53) :
    ∃ r, AverageLocation (ls.map some) = some r ∧
      (r.IsZero = true ↔
        ∃ a b : Int,
          (float64.sum ((ls.filter (fun p => !p.IsZero)).map Location.Latitude)).val =
            Raw.fin a ∧
          (float64.sum ((ls.filter (fun p => !p.IsZero)).map Location.Longitude)).val =
            Raw.fin b ∧
          2 * a.natAbs ≤ (ls.filter (fun p => !p.IsZero)).length ∧
          2 * b.natAbs ≤ (ls.filter (fun p => !p.IsZero)).length) := by
  rcases AverageLocation_of_valid ls h with ⟨hpos, hres⟩
  have hk : (ls.filter (fun p => !p.IsZero)).length < 2 ^ 53 :=
    Nat.lt_of_le_of_lt (List.length_filter_le _ _) hlen
  refine ⟨_, hres, ?_⟩
  rw [Location.IsZero_eq_true_iff, float64.div_ofNat_eq_zero_iff _ _ hpos hk,
    float64.div_ofNat_eq_zero_iff _ _ hpos hk]
  constructor
  · rintro ⟨⟨a, ha, hla⟩, ⟨b, hb, hlb⟩⟩
    exact ⟨a, b, ha, hb, hla, hlb⟩
  · rintro ⟨a, b, ha, hb, hla, hlb⟩
    exact ⟨⟨a, ha, hla⟩, ⟨b, hb, hlb⟩⟩

/-- Witness of C19, amended: the list `[(1, 5), (3, 4)]`. -/
theorem AverageLocation_isZero_iff_witness :
    ∃ r, AverageLocation ([(⟨1, 5⟩ : Location), ⟨3, 4⟩].map some) = some r ∧
      (r.IsZero = true ↔
        ∃ a b : Int,
          (float64.sum (([(⟨1, 5⟩ : Location), ⟨3, 4⟩].filter (fun p => !p.IsZero)).map
            Location.Latitude)).val = Raw.fin a ∧
          (float64.sum (([(⟨1, 5⟩ : Location), ⟨3, 4⟩].filter (fun p => !p.IsZero)).map
            Location.Longitude)).val = Raw.fin b ∧
          2 * a.natAbs ≤ ([(⟨1, 5⟩ : Location), ⟨3, 4⟩].filter (fun p => !p.IsZero)).length ∧
          2 * b.natAbs ≤ ([(⟨1, 5⟩ : Location), ⟨3, 4⟩].filter (fun p => !p.IsZero)).length) :=
  AverageLocation_isZero_iff [⟨1, 5⟩, ⟨3, 4⟩] ⟨⟨1, 5⟩, by simp, by decide!⟩ (by
    show 2 < 2 ^ 53
    norm_num)

section Pipeline

variable {α : Type}

/-! ## `convertRTTMapToArray` -/

theorem take_set_self_succ {β : Type} (row : List β) (i : Nat) (v : β) (h : i < row.length) :
    (row.set i v).take (i + 1) = row.take i ++ [v] := by
  rw [List.take_succ]
  have h1 : (row.set i v).take i = row.take i := by
    apply List.ext_getElem?
    intro j
    rw [List.getElem?_take, List.getElem?_take]
    split
    · next hj => rw [List.getElem?_set_ne (by omega)]
    · rfl
  rw [h1, List.getElem?_set_self h]
  rfl

theorem set_getElem?_self {β : Type} (l : List β) (i : Nat) (x : β) (h : l[i]? = some x) :
    l.set i x = l := by
  apply List.ext_getElem?
  intro j
  by_cases hj : i = j
  · subst hj
    rcases List.getElem?_eq_some.mp h with ⟨hlt, _⟩
    rw [List.getElem?_set_self hlt, h]
  · rw [List.getElem?_set_ne hj]

theorem fillRow_eq [Zero α] (destinations : GoMap Nat α) (source : Nat)
    (rest : List Nat) :
    ∀ (i : Nat) (result : List (List α)) (row : List α),
      result[source]? = some row → i + rest.length = row.length →
      fillRow destinations source rest i result =
        some (result.set source
          (row.take i ++ rest.map (fun d => (destinations.lookup d).getD 0))) := by
  induction rest with
  | nil =>
    intro i result row hrow hlen
    simp only [List.length_nil, Nat.add_zero] at hlen
    subst hlen
    simp [fillRow, set_getElem?_self result source row hrow]
  | cons d rest ih =>
    intro i result row hrow hlen
    simp only [List.length_cons] at hlen
    have hi : i < row.length := by omega
    rcases List.getElem?_eq_some.mp hrow with ⟨hsrc, _⟩
    have hstep : fillRow destinations source (d :: rest) i result =
        fillRow destinations source rest (i + 1)
          (result.set source (row.set i ((destinations.lookup d).getD 0))) := by
      cases hl : destinations.lookup d <;> simp [fillRow, hrow, hi, hl]
    rw [hstep, ih (i + 1) _ (row.set i ((destinations.lookup d).getD 0))
      (List.getElem?_set_self hsrc) (by rw [List.length_set]; omega)]
    rw [List.set_set, take_set_self_succ row i _ hi]
    simp

theorem maxSource_ge_init (entries : List (Σ _ : Nat, GoMap Nat α)) :
    ∀ m0 : Nat, m0 ≤ maxSource entries m0 := by
  induction entries with
  | nil =>
    intro m0
    simp [maxSource]
  | cons e rest ih =>
    intro m0
    rcases e with ⟨source, dests⟩
    simp only [maxSource]
    split_ifs with h
    · exact le_trans (le_of_lt h) (ih source)
    · exact ih m0

theorem maxSource_ge_key (entries : List (Σ _ : Nat, GoMap Nat α)) :
    ∀ m0 : Nat, ∀ k ∈ entries.keys, k ≤ maxSource entries m0 := by
  induction entries with
  | nil =>
    intro m0 k hk
    simp at hk
  | cons e rest ih =>
    intro m0 k hk
    rcases e with ⟨source, dests⟩
    rw [List.keys_cons, List.mem_cons] at hk
    simp only [maxSource]
    split_ifs with h
    · rcases hk with rfl | hk
      · exact maxSource_ge_init rest _
      · exact ih source k hk
    · rcases hk with rfl | hk
      · exact le_trans (not_lt.mp h) (maxSource_ge_init rest m0)
      · exact ih m0 k hk

theorem maxSource_mem (entries : List (Σ _ : Nat, GoMap Nat α)) :
    ∀ m0 : Nat, maxSource entries m0 = m0 ∨ maxSource entries m0 ∈ entries.keys := by
  induction entries with
  | nil =>
    intro m0
    simp [maxSource]
  | cons e rest ih =>
    intro m0
    rcases e with ⟨source, dests⟩
    simp only [maxSource, List.keys_cons, List.mem_cons]
    split_ifs with h
    · rcases ih source with h1 | h1
      · right; left; exact h1
      · right; right; exact h1
    · rcases ih m0 with h1 | h1
      · left; exact h1
      · right; right; exact h1

theorem fillRows_eq [Zero α] (popServerIds : List Nat)
    (entries : List (Σ _ : Nat, GoMap Nat α)) :
    ∀ result : List (List α),
      (∀ k ∈ entries.keys, k < result.length) →
      (∀ row ∈ result, row.length = popServerIds.length) →
      fillRows popServerIds entries result =
        some (entries.foldl
          (fun r e => r.set e.1 (popServerIds.map (fun d => (e.2.lookup d).getD 0))) result) := by
  induction entries with
  | nil =>
    intro result _ _
    simp [fillRows]
  | cons e rest ih =>
    intro result hkeys hrows
    rcases e with ⟨source, dests⟩
    have hsrc : source < result.length := hkeys source (by simp [List.keys_cons])
    have hrow : result[source]? = some (result[source]) := List.getElem?_eq_getElem hsrc
    have hlen : (result[source]).length = popServerIds.length :=
      hrows _ (List.getElem_mem hsrc)
    have hfill := fillRow_eq dests source popServerIds 0 result (result[source]) hrow
      (by omega)
    simp only [List.take_zero, List.nil_append] at hfill
    simp only [fillRows, hfill, List.foldl_cons]
    apply ih
    · intro k hk
      rw [List.length_set]
      exact hkeys k (by simp [List.keys_cons, hk])
    · intro row hmem
      rcases List.mem_or_eq_of_mem_set hmem with h | h
      · exact hrows row h
      · rw [h, List.length_map]

theorem foldl_set_length {β γ : Type} (f : γ → Nat) (g : γ → β) (entries : List γ) :
    ∀ result : List β,
      (entries.foldl (fun r e => r.set (f e) (g e)) result).length = result.length := by
  induction entries with
  | nil =>
    intro result
    rfl
  | cons e rest ih =>
    intro result
    simp only [List.foldl_cons]
    rw [ih, List.length_set]

theorem foldl_set_getElem? {β : Type} (g : GoMap Nat α → β)
    (entries : List (Σ _ : Nat, GoMap Nat α)) (nd : entries.NodupKeys) :
    ∀ (result : List β) (s : Nat),
      (∀ k ∈ entries.keys, k < result.length) →
      (entries.foldl (fun r e => r.set e.1 (g e.2)) result)[s]? =
        match entries.dlookup s with
        | some dests => some (g dests)
        | none => result[s]? := by
  induction entries with
  | nil =>
    intro result s _
    simp
  | cons e rest ih =>
    intro result s hkeys
    rcases e with ⟨k, dests⟩
    rw [List.nodupKeys_cons] at nd
    simp only [List.foldl_cons]
    rw [ih nd.2 _ s (by
      intro k' hk'
      rw [List.length_set]
      exact hkeys k' (by simp [List.keys_cons, hk']))]
    have hk : k < result.length := hkeys k (by simp [List.keys_cons])
    by_cases hs : s = k
    · subst hs
      have hnone : List.dlookup s rest = none := List.dlookup_eq_none.mpr nd.1
      rw [hnone, List.dlookup_cons_eq]
      simp [List.getElem?_set_self hk]
    · rw [List.dlookup_cons_ne rest ⟨k, dests⟩ hs]
      cases List.dlookup s rest with
      | some d => rfl
      | none => simp [List.getElem?_set_ne (Ne.symm hs)]

theorem makeslicePanics_of_le (n : Nat) (h : 24 * n ≤ 2 ^ 48) : makeslicePanics 24 n = false := by
  unfold makeslicePanics
  have h1 : ¬ (2 ^ 63 ≤ n) := by omega
  have h2 : ¬ (2 ^ 48 < 24 * n) := by omega
  rw [decide_eq_false h1, decide_eq_false h2]
  rfl

theorem convertRTTMapToArray_spec [Zero α] (rttMap : GoMap Nat (GoMap Nat α))
    (popServerIds : List Nat) (hb : ∀ k ∈ rttMap.keys, 24 * (k + 1) ≤ 2 ^ 48) :
    ∃ mat, convertRTTMapToArray rttMap popServerIds = some mat ∧
      mat.length = maxSource rttMap.entries 0 + 1 ∧
      ∀ s, s < maxSource rttMap.entries 0 + 1 →
        mat[s]? = some (popServerIds.map
          (fun d => ((rttMap.lookup s).bind (fun dests => dests.lookup d)).getD 0)) := by
  have hM : 24 * (maxSource rttMap.entries 0 + 1) ≤ 2 ^ 48 := by
    rcases maxSource_mem rttMap.entries 0 with h | h
    · rw [h]; norm_num
    · exact hb _ h
  have hmod : (maxSource rttMap.entries 0 + 1) % 2 ^ 64 = maxSource rttMap.entries 0 + 1 :=
    Nat.mod_eq_of_lt (by omega)
  have hkeys : ∀ k ∈ rttMap.entries.keys,
      k < (List.replicate (maxSource rttMap.entries 0 + 1)
        (List.replicate popServerIds.length (0 : α))).length := by
    intro k hk
    rw [List.length_replicate]
    exact Nat.lt_succ_of_le (maxSource_ge_key rttMap.entries 0 k hk)
  have hfill := fillRows_eq popServerIds rttMap.entries
    (List.replicate (maxSource rttMap.entries 0 + 1)
      (List.replicate popServerIds.length (0 : α))) hkeys (by
        intro row hrow
        rw [List.eq_of_mem_replicate hrow, List.length_replicate])
  have hconv : convertRTTMapToArray rttMap popServerIds =
      some (rttMap.entries.foldl
        (fun r e => r.set e.1 (popServerIds.map (fun d => (e.2.lookup d).getD 0)))
        (List.replicate (maxSource rttMap.entries 0 + 1)
          (List.replicate popServerIds.length (0 : α)))) := by
    unfold convertRTTMapToArray
    simp only [hmod, makeslicePanics_of_le _ hM, Bool.false_eq_true, if_false]
    exact hfill
  refine ⟨_, hconv, ?_, ?_⟩
  · rw [foldl_set_length (fun e : (Σ _ : Nat, GoMap Nat α) => e.1), List.length_replicate]
  · intro s hs
    rw [foldl_set_getElem? (fun dests : GoMap Nat α =>
      popServerIds.map (fun d => (dests.lookup d).getD 0)) rttMap.entries rttMap.nodupKeys _ s hkeys]
    have hl : rttMap.lookup s = rttMap.entries.dlookup s := rfl
    rw [hl]
    cases List.dlookup s rttMap.entries with
    | some dests => simp
    | none =>
      simp only [List.getElem?_replicate_of_lt hs, Option.bind, Option.getD]
      congr 1
      exact (List.map_const' popServerIds (0 : α)).symm

/-- Counterexample to C14 as stated.  The mapping with the single source id `2 ^ 64 - 1` is
not empty.  For it the row count `maxSourceID+1` wraps around to `0`: with an empty destination
list the function returns a matrix without rows, not one with `2 ^ 64` rows, and with the
destination list `[10]` it panics at `result[source][i]`.  For the mapping with the single
source id `2 ^ 62` and the list `[10]` it panics in `make`, whose check of the size fails. -/
theorem convertRTTMapToArray_wraps :
    (AList.singleton (2 ^ 64 - 1) ∅ : GoMap Nat (GoMap Nat float64)).entries ≠ [] ∧
      convertRTTMapToArray (AList.singleton (2 ^ 64 - 1) ∅ : GoMap Nat (GoMap Nat float64)) [] =
        some [] ∧
      convertRTTMapToArray (AList.singleton (2 ^ 64 - 1) ∅ : GoMap Nat (GoMap Nat float64)) [10] =
        none ∧
      convertRTTMapToArray (AList.singleton (2 ^ 62) ∅ : GoMap Nat (GoMap Nat float64)) [10] =
        none := by
  refine ⟨by simp [AList.singleton], ?_, ?_, ?_⟩
  · simp [convertRTTMapToArray, maxSource, fillRows, fillRow, AList.singleton, makeslicePanics]
  · simp [convertRTTMapToArray, maxSource, fillRows, fillRow, AList.singleton, makeslicePanics]
  · simp [convertRTTMapToArray, maxSource, fillRows, fillRow, AList.singleton, makeslicePanics]

/-- C14, amended.  For every non-empty nested mapping whose source ids `k` all satisfy
`24 * (k + 1) <= 2 ^ 48` (the outer slice passes the size check of `make`) and every
destination id list, `convertRTTMapToArray` returns a matrix with exactly
`maxSourceID + 1` rows, where `maxSourceID` is the greatest source id of the mapping; each row
has the length of the destination list; cell `[s][j]` is `m[s][ds[j]]` when that entry exists
and `0` otherwise; and every row whose source id is not a key of the mapping is all zeros. -/
theorem convertRTTMapToArray_dense [Zero α] (rttMap : GoMap Nat (GoMap Nat α))
    (popServerIds : List Nat) (hne : rttMap.entries ≠ [])
    (hb : ∀ k ∈ rttMap.keys, 24 * (k + 1) ≤ 2 ^ 48) :
    ∃ (mat : List (List α)) (maxSourceID : Nat),
      convertRTTMapToArray rttMap popServerIds = some mat ∧
      maxSourceID ∈ rttMap.keys ∧ (∀ k ∈ rttMap.keys, k ≤ maxSourceID) ∧
      mat.length = maxSourceID + 1 ∧
      (∀ row ∈ mat, row.length = popServerIds.length) ∧
      (∀ (s j d : Nat), s ≤ maxSourceID → popServerIds[j]? = some d →
        ∃ row, mat[s]? = some row ∧
          row[j]? = some (((rttMap.lookup s).bind (fun dests => dests.lookup d)).getD 0)) ∧
      (∀ s, s ≤ maxSourceID → s ∉ rttMap →
        mat[s]? = some (List.replicate popServerIds.length 0)) := by
  rcases convertRTTMapToArray_spec rttMap popServerIds hb with ⟨mat, hconv, hlen, hrow⟩
  have hmem : maxSource rttMap.entries 0 ∈ rttMap.keys := by
    rcases maxSource_mem rttMap.entries 0 with h | h
    · rcases List.exists_mem_of_ne_nil _ hne with ⟨e, he⟩
      have hk : e.1 ∈ rttMap.keys := List.mem_keys_of_mem he
      have hle := maxSource_ge_key rttMap.entries 0 e.1 hk
      rw [h] at hle ⊢
      have h0 : e.1 = 0 := Nat.le_zero.mp hle
      rw [← h0]
      exact hk
    · exact h
  refine ⟨mat, maxSource rttMap.entries 0, hconv, hmem,
    fun k hk => maxSource_ge_key rttMap.entries 0 k hk, hlen, ?_, ?_, ?_⟩
  · intro row hmemrow
    rcases List.getElem_of_mem hmemrow with ⟨s, hs, rfl⟩
    have h := hrow s (by omega)
    rw [List.getElem?_eq_getElem hs, Option.some.injEq] at h
    rw [h, List.length_map]
  · intro s j d hs hj
    refine ⟨_, hrow s (by omega), ?_⟩
    rw [List.getElem?_map, hj]
    rfl
  · intro s hs hnot
    rw [hrow s (by omega), AList.lookup_eq_none.mpr hnot]
    simp only [Option.bind, Option.getD]
    congr 1
    exact List.map_const' popServerIds (0 : α)

/-- Witness of C14, amended: the mapping `{1: {10: 25}}` and the destination list
`[10, 11]`. -/
theorem convertRTTMapToArray_dense_witness :
    ∃ (mat : List (List float64)) (maxSourceID : Nat),
      convertRTTMapToArray (AList.singleton 1 (AList.singleton 10 25)) [10, 11] = some mat ∧
      maxSourceID ∈
        (AList.singleton 1 (AList.singleton 10 25) : GoMap Nat (GoMap Nat float64)).keys ∧
      (∀ k ∈ (AList.singleton 1 (AList.singleton 10 25) : GoMap Nat (GoMap Nat float64)).keys,
        k ≤ maxSourceID) ∧
      mat.length = maxSourceID + 1 ∧
      (∀ row ∈ mat, row.length = [10, 11].length) ∧
      (∀ (s j d : Nat), s ≤ maxSourceID → [10, 11][j]? = some d →
        ∃ row, mat[s]? = some row ∧
          row[j]? = some ((((AList.singleton 1 (AList.singleton 10 25) :
            GoMap Nat (GoMap Nat float64)).lookup s).bind (fun dests => dests.lookup d)).getD 0)) ∧
      (∀ s, s ≤ maxSourceID →
        s ∉ (AList.singleton 1 (AList.singleton 10 25) : GoMap Nat (GoMap Nat float64)) →
        mat[s]? = some (List.replicate [10, 11].length 0)) :=
  convertRTTMapToArray_dense (AList.singleton 1 (AList.singleton 10 25)) [10, 11]
    (by simp [AList.singleton]) (by
      intro k hk
      simp [AList.keys_singleton] at hk
      subst hk
      norm_num)

/-- C20.  For the empty nested mapping and every destination id list,
`convertRTTMapToArray` returns a matrix with exactly one row, of the length of the list and
all zeros; the mapping whose only source id is `0` gives a matrix of the same shape (one row
of that length). -/
theorem convertRTTMapToArray_empty [Zero α] (popServerIds : List Nat) :
    convertRTTMapToArray (∅ : GoMap Nat (GoMap Nat α)) popServerIds =
        some [List.replicate popServerIds.length 0] ∧
      ∀ destinations : GoMap Nat α, ∃ row : List α,
        convertRTTMapToArray (AList.singleton 0 destinations) popServerIds = some [row] ∧
          row.length = popServerIds.length := by
  constructor
  · simp [convertRTTMapToArray, maxSource, fillRows, makeslicePanics]
  · intro destinations
    rcases convertRTTMapToArray_spec (AList.singleton 0 destinations) popServerIds (by
      intro k hk
      simp [AList.keys_singleton] at hk
      subst hk
      norm_num) with ⟨mat, hconv, hlen, hrow⟩
    have hmax : maxSource (AList.singleton 0 destinations : GoMap Nat (GoMap Nat α)).entries 0 = 0 := by
      simp [AList.singleton, maxSource]
    rw [hmax] at hlen hrow
    have h0 := hrow 0 (by norm_num)
    match mat, hlen, h0 with
    | [row], _, h0 =>
      refine ⟨row, hconv, ?_⟩
      simp only [List.getElem?_cons_zero, Option.some.injEq] at h0
      rw [h0, List.length_map]

/-! ## `calculateAverageRTTMap` -/

theorem groupPing_lookup (grouped : GoMap Nat (GoMap Nat (List (Ping α)))) (ping : Ping α)
    (s d : Nat) :
    ((groupPing grouped ping).lookup s).bind (fun inner => inner.lookup d) =
      if s = ping.Source ∧ d = ping.Destination then
        some (((grouped.lookup s).bind (fun inner => inner.lookup d)).getD [] ++ [ping])
      else
        (grouped.lookup s).bind (fun inner => inner.lookup d) := by
  unfold groupPing
  by_cases hs : s = ping.Source
  · subst hs
    by_cases hd : d = ping.Destination
    · subst hd
      cases hl : grouped.lookup ping.Source with
      | none => simp [hl, AList.lookup_insert, -AList.insert_empty]
      | some inner => simp [hl, AList.lookup_insert]
    · cases hl : grouped.lookup ping.Source with
      | none => simp [hl, hd, AList.lookup_insert, AList.lookup_insert_ne hd, -AList.insert_empty]
      | some inner => simp [hl, hd, AList.lookup_insert, AList.lookup_insert_ne hd]
  · simp only [hs, false_and, if_false, AList.lookup_insert_ne hs]
    split_ifs
    · rw [AList.lookup_insert_ne hs]
    · rfl

theorem foldl_groupPing_lookup (pings : List (Ping α)) (s d : Nat) :
    ∀ grouped : GoMap Nat (GoMap Nat (List (Ping α))),
      ((pings.foldl groupPing grouped).lookup s).bind (fun inner => inner.lookup d) =
        if (pings.filter (fun p => decide (p.Source = s ∧ p.Destination = d))).isEmpty then
          (grouped.lookup s).bind (fun inner => inner.lookup d)
        else
          some (((grouped.lookup s).bind (fun inner => inner.lookup d)).getD [] ++
            pings.filter (fun p => decide (p.Source = s ∧ p.Destination = d))) := by
  induction pings with
  | nil =>
    intro grouped
    simp
  | cons ping rest ih =>
    intro grouped
    rw [List.foldl_cons, ih, groupPing_lookup]
    by_cases hp : ping.Source = s ∧ ping.Destination = d
    · have hp' : s = ping.Source ∧ d = ping.Destination := ⟨hp.1.symm, hp.2.symm⟩
      simp only [hp', and_self, if_true, List.filter_cons, decide_True]
      cases hf : (rest.filter (fun p => decide (p.Source = ping.Source ∧
          p.Destination = ping.Destination))) with
      | nil => simp
      | cons x xs => simp
    · have hp' : ¬ (s = ping.Source ∧ d = ping.Destination) :=
        fun h => hp ⟨h.1.symm, h.2.symm⟩
      simp only [hp', if_false, List.filter_cons, hp, decide_False]
      rfl

theorem sumRTT_eq_sum (group : List (Ping float64)) :
    sumRTT group = float64.sum (group.map Ping.Avg) := by
  unfold sumRTT float64.sum
  rw [List.foldl_map]

theorem averageDestinations_lookup (source : Nat)
    (dests : List (Σ _ : Nat, List (Ping float64))) (nd : dests.NodupKeys) :
    ∀ (result : GoMap Nat (GoMap Nat float64)) (s d : Nat),
      ((averageDestinations source dests result).lookup s).bind (fun inner => inner.lookup d) =
        if s = source then
          match dests.dlookup d with
          | some group => some (sumRTT group / float64.ofNat group.length)
          | none => (result.lookup s).bind (fun inner => inner.lookup d)
        else
          (result.lookup s).bind (fun inner => inner.lookup d) := by
  induction dests with
  | nil =>
    intro result s d
    simp [averageDestinations]
  | cons e rest ih =>
    intro result s d
    rcases e with ⟨d0, group0⟩
    rw [List.nodupKeys_cons] at nd
    simp only [averageDestinations]
    rw [ih nd.2]
    by_cases hs : s = source
    · subst hs
      simp only [if_true, AList.lookup_insert, Option.bind]
      by_cases hd : d = d0
      · subst hd
        rw [List.dlookup_eq_none.mpr nd.1, List.dlookup_cons_eq]
        simp only [AList.lookup_insert]
      · rw [List.dlookup_cons_ne rest ⟨d0, group0⟩ hd]
        cases List.dlookup d rest with
        | some g => rfl
        | none =>
          simp only [AList.lookup_insert_ne hd]
          cases result.lookup s with
          | none => simp
          | some inner => simp
    · simp only [hs, if_false, AList.lookup_insert_ne hs]

theorem averageSources_lookup
    (entries : List (Σ _ : Nat, GoMap Nat (List (Ping float64)))) (nd : entries.NodupKeys) :
    ∀ (result : GoMap Nat (GoMap Nat float64)) (s d : Nat),
      ((averageSources entries result).lookup s).bind (fun inner => inner.lookup d) =
        match entries.dlookup s with
        | some dests =>
          (dests.lookup d).map (fun group => sumRTT group / float64.ofNat group.length)
        | none => (result.lookup s).bind (fun inner => inner.lookup d) := by
  induction entries with
  | nil =>
    intro result s d
    simp [averageSources]
  | cons e rest ih =>
    intro result s d
    rcases e with ⟨s0, dests0⟩
    rw [List.nodupKeys_cons] at nd
    simp only [averageSources]
    rw [ih nd.2, averageDestinations_lookup s0 dests0.entries dests0.nodupKeys]
    by_cases hs : s = s0
    · subst hs
      rw [List.dlookup_eq_none.mpr nd.1, List.dlookup_cons_eq]
      simp only [if_true, AList.lookup_insert, Option.bind, AList.lookup_empty]
      have hl : dests0.lookup d = dests0.entries.dlookup d := rfl
      rw [hl]
      cases List.dlookup d dests0.entries with
      | some g => rfl
      | none => rfl
    · rw [List.dlookup_cons_ne rest ⟨s0, dests0⟩ hs]
      simp only [hs, if_false, AList.lookup_insert_ne hs]

/-- Entry of `(s, d)` in the result of `calculateAverageRTTMap`. -/
theorem calculateAverageRTTMap_lookup (pings : List (Ping float64)) (s d : Nat) :
    ((calculateAverageRTTMap pings).lookup s).bind (fun inner => inner.lookup d) =
      if (pings.filter (fun p => decide (p.Source = s ∧ p.Destination = d))).isEmpty then
        none
      else
        some (float64.sum ((pings.filter
            (fun p => decide (p.Source = s ∧ p.Destination = d))).map Ping.Avg) /
          float64.ofNat
            (pings.filter (fun p => decide (p.Source = s ∧ p.Destination = d))).length) := by
  unfold calculateAverageRTTMap
  rw [averageSources_lookup _ (pings.foldl groupPing ∅).nodupKeys]
  have hg := foldl_groupPing_lookup pings s d ∅
  have hl : (pings.foldl groupPing ∅).lookup s = (pings.foldl groupPing ∅).entries.dlookup s :=
    rfl
  rw [hl] at hg
  simp only [AList.lookup_empty, Option.bind, Option.getD, List.nil_append] at hg ⊢
  cases hd : List.dlookup s (pings.foldl groupPing ∅).entries with
  | none =>
    rw [hd] at hg
    simp only at hg ⊢
    split_ifs at hg ⊢ with h
    rfl
  | some dests =>
    rw [hd] at hg
    simp only at hg ⊢
    rw [hg]
    split_ifs with h
    · rfl
    · simp [sumRTT_eq_sum]

theorem mem_groupPing (grouped : GoMap Nat (GoMap Nat (List (Ping α)))) (ping : Ping α)
    (k : Nat) (h : k ∈ groupPing grouped ping) : k = ping.Source ∨ k ∈ grouped := by
  unfold groupPing at h
  rw [AList.mem_insert] at h
  rcases h with h | h
  · exact Or.inl h
  · split_ifs at h
    · rw [AList.mem_insert] at h
      exact h
    · exact Or.inr h

theorem mem_foldl_groupPing (pings : List (Ping α)) (k : Nat) :
    ∀ grouped : GoMap Nat (GoMap Nat (List (Ping α))),
      k ∈ pings.foldl groupPing grouped → (∃ p ∈ pings, p.Source = k) ∨ k ∈ grouped := by
  induction pings with
  | nil =>
    intro grouped h
    exact Or.inr h
  | cons ping rest ih =>
    intro grouped h
    rw [List.foldl_cons] at h
    rcases ih _ h with ⟨p, hp, hk⟩ | h'
    · exact Or.inl ⟨p, List.mem_cons_of_mem _ hp, hk⟩
    · rcases mem_groupPing grouped ping k h' with h'' | h''
      · exact Or.inl ⟨ping, List.mem_cons_self _ _, h''.symm⟩
      · exact Or.inr h''

theorem mem_averageDestinations (source : Nat)
    (dests : List (Σ _ : Nat, List (Ping float64))) (k : Nat) :
    ∀ result : GoMap Nat (GoMap Nat float64),
      k ∈ averageDestinations source dests result → k = source ∨ k ∈ result := by
  induction dests with
  | nil =>
    intro result h
    exact Or.inr h
  | cons e rest ih =>
    intro result h
    rcases e with ⟨d0, group0⟩
    simp only [averageDestinations] at h
    rcases ih _ h with h' | h'
    · exact Or.inl h'
    · rw [AList.mem_insert] at h'
      exact h'

theorem mem_averageSources
    (entries : List (Σ _ : Nat, GoMap Nat (List (Ping float64)))) (k : Nat) :
    ∀ result : GoMap Nat (GoMap Nat float64),
      k ∈ averageSources entries result → k ∈ entries.keys ∨ k ∈ result := by
  induction entries with
  | nil =>
    intro result h
    exact Or.inr h
  | cons e rest ih =>
    intro result h
    rcases e with ⟨s0, dests0⟩
    simp only [averageSources] at h
    rw [List.keys_cons, List.mem_cons]
    rcases ih _ h with h' | h'
    · exact Or.inl (Or.inr h')
    · rcases mem_averageDestinations s0 dests0.entries k _ h' with h'' | h''
      · exact Or.inl (Or.inl h'')
      · rw [AList.mem_insert] at h''
        rcases h'' with h3 | h3
        · exact Or.inl (Or.inl h3)
        · exact Or.inr h3

theorem mem_calculateAverageRTTMap (pings : List (Ping float64)) (k : Nat)
    (h : k ∈ calculateAverageRTTMap pings) : ∃ p ∈ pings, p.Source = k := by
  unfold calculateAverageRTTMap at h
  rcases mem_averageSources _ k ∅ h with h' | h'
  · rcases mem_foldl_groupPing pings k ∅ (AList.mem_keys.mpr h') with h'' | h''
    · exact h''
    · exact absurd h'' (AList.not_mem_empty k)
  · exact absurd h' (AList.not_mem_empty k)

/-- C13.  For every list of samples, the result of `calculateAverageRTTMap` has an entry for
`(s, d)` if and only if some sample has `Source s` and `Destination d`, and the value of the
entry is the mean of `Avg` over exactly the samples with that pair: the sum of their `Avg`,
divided by their number.  Sum and quotient are those of `float64`: the sum is accumulated from
`0` in the order of the samples and rounded at every addition (`float64.sum`), the number of
samples is converted to `float64`, and the quotient is rounded. -/
theorem calculateAverageRTTMap_mean (pings : List (Ping float64)) (s d : Nat) :
    ((((calculateAverageRTTMap pings).lookup s).bind (fun inner => inner.lookup d)).isSome =
          true ↔
        ∃ p ∈ pings, p.Source = s ∧ p.Destination = d) ∧
      ((calculateAverageRTTMap pings).lookup s).bind (fun inner => inner.lookup d) =
        if (pings.filter (fun p => decide (p.Source = s ∧ p.Destination = d))).isEmpty then
          none
        else
          some (float64.sum ((pings.filter
              (fun p => decide (p.Source = s ∧ p.Destination = d))).map Ping.Avg) /
            float64.ofNat
              (pings.filter (fun p => decide (p.Source = s ∧ p.Destination = d))).length) := by
  refine ⟨?_, calculateAverageRTTMap_lookup pings s d⟩
  rw [calculateAverageRTTMap_lookup]
  cases hf : pings.filter (fun p => decide (p.Source = s ∧ p.Destination = d)) with
  | nil =>
    simp only [List.isEmpty_nil, if_true, Option.isSome_none, Bool.false_eq_true, false_iff]
    rintro ⟨p, hp, hsd⟩
    have hmem : p ∈ pings.filter (fun p => decide (p.Source = s ∧ p.Destination = d)) := by
      simp [List.mem_filter, hp, hsd]
    rw [hf] at hmem
    simp at hmem
  | cons x xs =>
    simp only [List.isEmpty_cons, Bool.false_eq_true, if_false, Option.isSome_some, true_iff]
    have hmem : x ∈ pings.filter (fun p => decide (p.Source = s ∧ p.Destination = d)) := by
      rw [hf]
      exact List.mem_cons_self _ _
    rw [List.mem_filter] at hmem
    exact ⟨x, hmem.1, by simpa using hmem.2⟩

/-! ## The pipeline `convertRTTMapToArray (calculateAverageRTTMap pings)` -/

theorem pipeline_spec (pings : List (Ping float64)) (popServerIds : List Nat)
    (hb : ∀ p ∈ pings, 24 * (p.Source + 1) ≤ 2 ^ 48) :
    ∃ mat, convertRTTMapToArray (calculateAverageRTTMap pings) popServerIds = some mat ∧
      (∀ p ∈ pings, p.Source < mat.length) ∧
      ∀ s, s < mat.length →
        mat[s]? = some (popServerIds.map (fun d =>
          if (pings.filter (fun p => decide (p.Source = s ∧ p.Destination = d))).isEmpty then 0
          else
            float64.sum ((pings.filter
                (fun p => decide (p.Source = s ∧ p.Destination = d))).map Ping.Avg) /
              float64.ofNat
                (pings.filter (fun p => decide (p.Source = s ∧ p.Destination = d))).length)) := by
  rcases convertRTTMapToArray_spec (calculateAverageRTTMap pings) popServerIds (by
    intro k hk
    rcases mem_calculateAverageRTTMap pings k (AList.mem_keys.mpr hk) with ⟨p, hp, rfl⟩
    exact hb p hp) with ⟨mat, hconv, hlen, hrow⟩
  refine ⟨mat, hconv, ?_, ?_⟩
  · intro p hp
    rw [hlen]
    apply Nat.lt_succ_of_le
    apply maxSource_ge_key
    have hmem : p ∈ pings.filter
        (fun q => decide (q.Source = p.Source ∧ q.Destination = p.Destination)) := by
      simp [List.mem_filter, hp]
    have hview := calculateAverageRTTMap_lookup pings p.Source p.Destination
    have hl : ((calculateAverageRTTMap pings).lookup p.Source).isSome = true := by
      cases h : (calculateAverageRTTMap pings).lookup p.Source with
      | none =>
        rw [h] at hview
        cases hf : pings.filter
            (fun q => decide (q.Source = p.Source ∧ q.Destination = p.Destination)) with
        | nil => rw [hf] at hmem; simp at hmem
        | cons x xs => rw [hf] at hview; simp at hview
      | some inner => rfl
    exact AList.mem_keys.mp (AList.lookup_isSome.mp hl)
  · intro s hs
    rw [hrow s (by rw [← hlen]; exact hs)]
    congr 1
    apply List.map_congr_left
    intro d _
    rw [calculateAverageRTTMap_lookup]
    split_ifs <;> rfl

/-- Counterexample to C15 as stated.  For the non-empty sample list with the single sample
`(2 ^ 64 - 1, 10, 20)` and the destination list `[10]` the pipeline panics (the row count
wraps around to `0`) and for the single sample `(2 ^ 48, 10, 20)` it panics in `make`: there is
no matrix and no cell. -/
theorem pipeline_panics_on_max_source :
    [(⟨2 ^ 64 - 1, 10, "", 0, 20, 0, 0⟩ : Ping float64)] ≠ [] ∧
      convertRTTMapToArray
        (calculateAverageRTTMap [(⟨2 ^ 64 - 1, 10, "", 0, 20, 0, 0⟩ : Ping float64)]) [10] =
          none ∧
      convertRTTMapToArray
        (calculateAverageRTTMap [(⟨2 ^ 48, 10, "", 0, 20, 0, 0⟩ : Ping float64)]) [10] =
          none := by
  decide!

/-- C15, amended.  For every sample list whose source ids `k` all satisfy
`24 * (k + 1) <= 2 ^ 48` and every destination id list, the pipeline returns a matrix that has
a row for every source id of the samples, and cell `[s][j]` of every row `s` holds the mean of
`Avg` over the samples with `Source s` and `Destination ds[j]` when there is one, and `0` when
there is none (the mean is the `float64` sum in sample order divided by the count); and for
the samples `(1,10,20.0), (1,10,30.0), (1,11,5.0)` with `ds = [10, 11]` the matrix is
`[[0, 0], [25, 5]]`. -/
theorem pipeline_cells (pings : List (Ping float64)) (popServerIds : List Nat)
    (hb : ∀ p ∈ pings, 24 * (p.Source + 1) ≤ 2 ^ 48) :
    (∃ mat, convertRTTMapToArray (calculateAverageRTTMap pings) popServerIds = some mat ∧
      (∀ p ∈ pings, p.Source < mat.length) ∧
      ∀ (s j d : Nat), s < mat.length → popServerIds[j]? = some d →
        ∃ row, mat[s]? = some row ∧
          row[j]? = some
            (if (pings.filter (fun p => decide (p.Source = s ∧ p.Destination = d))).isEmpty
            then 0
            else
              float64.sum ((pings.filter
                  (fun p => decide (p.Source = s ∧ p.Destination = d))).map Ping.Avg) /
                float64.ofNat
                  (pings.filter (fun p => decide (p.Source = s ∧ p.Destination = d))).length)) ∧
    convertRTTMapToArray
        (calculateAverageRTTMap [(⟨1, 10, "", 0, 20, 0, 0⟩ : Ping float64),
          ⟨1, 10, "", 0, 30, 0, 0⟩, ⟨1, 11, "", 0, 5, 0, 0⟩]) [10, 11] =
      some [[0, 0], [25, 5]] := by
  constructor
  · rcases pipeline_spec pings popServerIds hb with ⟨mat, hconv, hsrc, hrow⟩
    refine ⟨mat, hconv, hsrc, ?_⟩
    intro s j d hs hj
    refine ⟨_, hrow s hs, ?_⟩
    rw [List.getElem?_map, hj]
    rfl
  · decide!

/-- Witness of C15, amended: the samples `(1,10,20.0), (1,10,30.0)` and `ds = [10, 11]`. -/
theorem pipeline_cells_witness :
    (∃ mat, convertRTTMapToArray
          (calculateAverageRTTMap [(⟨1, 10, "", 0, 20, 0, 0⟩ : Ping float64),
            ⟨1, 10, "", 0, 30, 0, 0⟩]) [10, 11] = some mat ∧
      (∀ p ∈ [(⟨1, 10, "", 0, 20, 0, 0⟩ : Ping float64), ⟨1, 10, "", 0, 30, 0, 0⟩],
        p.Source < mat.length) ∧
      ∀ (s j d : Nat), s < mat.length → [10, 11][j]? = some d →
        ∃ row, mat[s]? = some row ∧
          row[j]? = some
            (if ([(⟨1, 10, "", 0, 20, 0, 0⟩ : Ping float64), ⟨1, 10, "", 0, 30, 0, 0⟩].filter
                (fun p => decide (p.Source = s ∧ p.Destination = d))).isEmpty
            then 0
            else
              float64.sum
                  (([(⟨1, 10, "", 0, 20, 0, 0⟩ : Ping float64), ⟨1, 10, "", 0, 30, 0, 0⟩].filter
                    (fun p => decide (p.Source = s ∧ p.Destination = d))).map Ping.Avg) /
                float64.ofNat
                  ([(⟨1, 10, "", 0, 20, 0, 0⟩ : Ping float64), ⟨1, 10, "", 0, 30, 0, 0⟩].filter
                    (fun p => decide (p.Source = s ∧ p.Destination = d))).length)) ∧
    convertRTTMapToArray
        (calculateAverageRTTMap [(⟨1, 10, "", 0, 20, 0, 0⟩ : Ping float64),
          ⟨1, 10, "", 0, 30, 0, 0⟩, ⟨1, 11, "", 0, 5, 0, 0⟩]) [10, 11] =
      some [[0, 0], [25, 5]] :=
  pipeline_cells [⟨1, 10, "", 0, 20, 0, 0⟩, ⟨1, 10, "", 0, 30, 0, 0⟩] [10, 11] (by
    intro p hp
    simp at hp
    rcases hp with rfl | rfl <;> norm_num)

theorem filter_same_pair_of_pairwise (pings : List (Ping α))
    (hpair : pings.Pairwise
      (fun p q => ¬ (p.Source = q.Source ∧ p.Destination = q.Destination)))
    (p : Ping α) (hp : p ∈ pings) :
    pings.filter (fun q => decide (q.Source = p.Source ∧ q.Destination = p.Destination)) =
      [p] := by
  induction pings with
  | nil => simp at hp
  | cons x xs ih =>
    rw [List.pairwise_cons] at hpair
    rcases List.mem_cons.mp hp with hpx | hpx
    · subst hpx
      have hnone : xs.filter
          (fun q => decide (q.Source = p.Source ∧ q.Destination = p.Destination)) = [] := by
        rw [List.filter_eq_nil_iff]
        intro q hq
        have h := hpair.1 q hq
        simp only [decide_eq_true_eq]
        exact fun hc => h ⟨hc.1.symm, hc.2.symm⟩
      rw [List.filter_cons, hnone]
      simp
    · have hx : ¬ (x.Source = p.Source ∧ x.Destination = p.Destination) := hpair.1 p hpx
      simp only [List.filter_cons, hx, decide_False]
      exact ih hpair.2 hpx

/-- Counterexample to C16 as stated.  The single sample `(2 ^ 64 - 1, 11, 7)` shares its
pair with no other sample and its destination is at position `0` of `[11]`, yet the pipeline
panics; so it does for the single sample `(2 ^ 44, 11, 7)`, in `make`.  No cell holds `7`. -/
theorem single_sample_at_max_source_panics :
    [(⟨2 ^ 64 - 1, 11, "", 0, 7, 0, 0⟩ : Ping float64)].Pairwise
        (fun p q => ¬ (p.Source = q.Source ∧ p.Destination = q.Destination)) ∧
      [11][0]? = some (⟨2 ^ 64 - 1, 11, "", 0, 7, 0, 0⟩ : Ping float64).Destination ∧
      convertRTTMapToArray
        (calculateAverageRTTMap [(⟨2 ^ 64 - 1, 11, "", 0, 7, 0, 0⟩ : Ping float64)]) [11] =
          none ∧
      convertRTTMapToArray
        (calculateAverageRTTMap [(⟨2 ^ 44, 11, "", 0, 7, 0, 0⟩ : Ping float64)]) [11] =
          none := by
  refine ⟨by simp, by simp, by decide!, by decide!⟩

/-- C16, amended.  For every sample list in which no two samples share the same
`(Source, Destination)` pair and whose source ids `k` all satisfy `24 * (k + 1) <= 2 ^ 48`,
and every destination id list `ds`, each sample `(s, d, v)` whose destination `d` is at
position `j` of `ds` yields exactly `v` in cell `[s][j]` of the matrix: `(0 + v) / 1` is `v`. -/
theorem pipeline_single_sample (pings : List (Ping float64))
    (popServerIds : List Nat)
    (hpair : pings.Pairwise
      (fun p q => ¬ (p.Source = q.Source ∧ p.Destination = q.Destination)))
    (hb : ∀ p ∈ pings, 24 * (p.Source + 1) ≤ 2 ^ 48)
    (p : Ping float64) (hp : p ∈ pings) (j : Nat)
    (hj : popServerIds[j]? = some p.Destination) :
    ∃ mat row, convertRTTMapToArray (calculateAverageRTTMap pings) popServerIds = some mat ∧
      mat[p.Source]? = some row ∧ row[j]? = some p.Avg := by
  rcases pipeline_spec pings popServerIds hb with ⟨mat, hconv, hsrc, hrow⟩
  refine ⟨mat, _, hconv, hrow p.Source (hsrc p hp), ?_⟩
  rw [List.getElem?_map, hj]
  have h1 : float64.ofNat 1 = 1 := rfl
  simp only [Option.map_some', filter_same_pair_of_pairwise pings hpair p hp]
  simp [float64.sum, float64.zero_add, h1, float64.div_one]

/-- Witness of C16, amended: the samples `(1,10,20.0), (2,11,5.0)`, `ds = [10, 11]`, and
the second sample at position `1`. -/
theorem pipeline_single_sample_witness :
    ∃ mat row,
      convertRTTMapToArray
          (calculateAverageRTTMap [(⟨1, 10, "", 0, 20, 0, 0⟩ : Ping float64),
            ⟨2, 11, "", 0, 5, 0, 0⟩]) [10, 11] = some mat ∧
        mat[(⟨2, 11, "", 0, 5, 0, 0⟩ : Ping float64).Source]? = some row ∧
        row[1]? = some (⟨2, 11, "", 0, 5, 0, 0⟩ : Ping float64).Avg :=
  pipeline_single_sample [⟨1, 10, "", 0, 20, 0, 0⟩, ⟨2, 11, "", 0, 5, 0, 0⟩] [10, 11]
    (by simp) (by
      intro p hp
      simp at hp
      rcases hp with rfl | rfl <;> norm_num)
    ⟨2, 11, "", 0, 5, 0, 0⟩ (by simp) 1 (by simp)

/-! ## `filterPingsCSV` -/

theorem buildValueSet_mem (values : List Nat) :
    ∀ (valueSet : GoMap Nat Unit) (d : Nat),
      d ∈ buildValueSet values valueSet ↔ d ∈ values ∨ d ∈ valueSet := by
  induction values with
  | nil =>
    intro valueSet d
    simp [buildValueSet]
  | cons v rest ih =>
    intro valueSet d
    simp only [buildValueSet]
    rw [ih, AList.mem_insert, List.mem_cons]
    tauto

theorem filterPingsLoop_eq (valueSet : GoMap Nat Unit) (rows : List (Ping α)) :
    ∀ filteredRows : List (Ping α),
      filterPingsLoop valueSet rows filteredRows =
        filteredRows ++ rows.filter (fun row => (valueSet.lookup row.Destination).isSome) := by
  induction rows with
  | nil =>
    intro filteredRows
    simp [filterPingsLoop]
  | cons row rest ih =>
    intro filteredRows
    by_cases h : (valueSet.lookup row.Destination).isSome = true
    · simp [filterPingsLoop, h, ih]
    · simp [filterPingsLoop, h, ih]

/-- C18.  The sample-filter stage returns exactly the samples whose `Destination` is a
member of the id list, each kept once and in the original order: the result is the
sublist `rows.filter (Destination ∈ values)`. -/
theorem filterPingsCSV_eq_filter (rows : List (Ping α)) (values : List Nat) :
    filterPingsCSV rows values = rows.filter (fun row => decide (row.Destination ∈ values)) := by
  unfold filterPingsCSV
  rw [filterPingsLoop_eq, List.nil_append]
  apply List.filter_congr
  intro row _
  have h := buildValueSet_mem values ∅ row.Destination
  rw [← AList.lookup_isSome] at h
  simp only [AList.not_mem_empty, or_false] at h
  by_cases hm : row.Destination ∈ values
  · simp [hm, h.mpr hm]
  · have : ¬ (AList.lookup row.Destination (buildValueSet values ∅)).isSome = true :=
      fun hs => hm (h.mp hs)
    simp [hm, this]

/-! ## `filterServerCSV` -/

theorem buildNameSet_spec (names : List String) :
    ∀ (i : Nat) (nameSet : GoMap String Nat), names.Nodup → (∀ n ∈ names, n ∉ nameSet) →
      (∀ (j : Nat) (name : String), names[j]? = some name →
        (buildNameSet names i nameSet).lookup name = some (i + j)) ∧
      (∀ name : String, name ∉ names →
        (buildNameSet names i nameSet).lookup name = nameSet.lookup name) ∧
      (buildNameSet names i nameSet).entries.length = nameSet.entries.length + names.length := by
  induction names with
  | nil =>
    intro i nameSet _ _
    simp [buildNameSet]
  | cons v rest ih =>
    intro i nameSet hnd hnot
    rw [List.nodup_cons] at hnd
    have hv : v ∉ nameSet := hnot v (List.mem_cons_self _ _)
    have hrest : ∀ n ∈ rest, n ∉ nameSet.insert v i := by
      intro n hn hmem
      rw [AList.mem_insert] at hmem
      rcases hmem with h | h
      · exact hnd.1 (h ▸ hn)
      · exact hnot n (List.mem_cons_of_mem _ hn) h
    rcases ih (i + 1) (nameSet.insert v i) hnd.2 hrest with ⟨h1, h2, h3⟩
    simp only [buildNameSet]
    refine ⟨?_, ?_, ?_⟩
    · intro j name hj
      cases j with
      | zero =>
        simp only [List.getElem?_cons_zero, Option.some.injEq] at hj
        subst hj
        rw [h2 v hnd.1, AList.lookup_insert]
        rfl
      | succ j =>
        simp only [List.getElem?_cons_succ] at hj
        rw [h1 j name hj]
        congr 1
        omega
    · intro name hname
      rw [List.mem_cons, not_or] at hname
      rw [h2 name hname.2, AList.lookup_insert_ne hname.1]
    · rw [h3, AList.insert_entries_of_neg hv]
      simp only [List.length_cons]
      omega

/-- The loop of `filterServerCSV` does not panic when every index of the name set is in range;
position `i` then holds the last row whose name has index `i`, or its initial content when
there is no such row. -/
theorem filterServerLoop_spec (nameSet : GoMap String Nat) (n : Nat)
    (hidx : ∀ (name : String) (idx : Nat), nameSet.lookup name = some idx → idx < n)
    (rows : List (Server α)) :
    ∀ filteredRows : List (Server α), filteredRows.length = n →
      ∃ out, filterServerLoop nameSet rows filteredRows = some out ∧ out.length = n ∧
        ∀ i : Nat, out[i]? = (filteredRows[i]?).map (fun d =>
          ((rows.filter (fun r => decide (nameSet.lookup r.Name = some i))).getLast?).getD d) := by
  induction rows with
  | nil =>
    intro filteredRows hlen
    refine ⟨filteredRows, by simp [filterServerLoop], hlen, ?_⟩
    intro i
    simp
  | cons row rest ih =>
    intro filteredRows hlen
    cases hl : nameSet.lookup row.Name with
    | none =>
      rcases ih filteredRows hlen with ⟨out, hout, holen, hcells⟩
      refine ⟨out, by simp [filterServerLoop, hl, hout], holen, ?_⟩
      intro i
      rw [hcells i]
      simp [List.filter_cons, hl]
    | some index =>
      have hlt : index < filteredRows.length := by
        rw [hlen]
        exact hidx row.Name index hl
      rcases ih (filteredRows.set index row) (by rw [List.length_set, hlen]) with
        ⟨out, hout, holen, hcells⟩
      refine ⟨out, by simp [filterServerLoop, hl, hlt, hout], holen, ?_⟩
      intro i
      rw [hcells i]
      by_cases hi : index = i
      · subst hi
        rw [List.getElem?_set_self hlt, List.getElem?_eq_getElem hlt]
        simp [List.filter_cons, hl, List.getLast?_cons]
      · rw [List.getElem?_set_ne hi]
        simp [List.filter_cons, hl, hi]

/-- Counterexample to C17 as stated.  With the non-empty name list `["a", "a"]` the stage
panics on the table with the one record named `"a"` (it stores at index `1` of a slice of
length `1`), and on the table with the one record named `"b"` it returns a list with one
position, not one per requested name. -/
theorem filterServerCSV_duplicate_names :
    (["a", "a"] : List String) ≠ [] ∧
      filterServerCSV [(⟨1, "a", "", "", "", "", "", "", 1, 2⟩ : Server float64)] ["a", "a"] =
        none ∧
      filterServerCSV [(⟨1, "b", "", "", "", "", "", "", 1, 2⟩ : Server float64)] ["a", "a"] =
        some [Server.zero] := by
  refine ⟨by simp, ?_, ?_⟩
  · simp [filterServerCSV, buildNameSet, filterServerLoop, AList.insert, AList.lookup,
      List.kinsert, List.kerase]
  · simp [filterServerCSV, buildNameSet, filterServerLoop, AList.insert, AList.lookup,
      List.kinsert, List.kerase]

/-- C17, amended.  For every table of records and every non-empty list of pairwise
distinct names, the name-filter stage returns without a panic a list with one position per
requested name, in the requested order: position `i` holds the last record of the table whose
`Name` is `names[i]` when the table has such a record, and the zero-valued record when it has
none. -/
theorem filterServerCSV_distinct_names [Zero α] (rows : List (Server α))
    (names : List String) (hne : names ≠ []) (hnd : names.Nodup) :
    filterServerCSV rows names =
      some (names.map (fun name =>
        ((rows.filter (fun r => decide (r.Name = name))).getLast?).getD Server.zero)) := by
  rcases buildNameSet_spec names 0 ∅ hnd (fun n _ => AList.not_mem_empty n) with ⟨h1, h2, h3⟩
  simp only [AList.empty_entries, List.length_nil, Nat.zero_add, AList.lookup_empty] at h1 h2 h3
  have hlookup : ∀ (name : String) (idx : Nat),
      (buildNameSet names 0 ∅).lookup name = some idx ↔ names[idx]? = some name := by
    intro name idx
    constructor
    · intro h
      by_cases hmem : name ∈ names
      · rcases List.getElem?_of_mem hmem with ⟨j, hj⟩
        rw [h1 j name hj, Option.some.injEq] at h
        rw [← h]
        exact hj
      · rw [h2 name hmem] at h
        cases h
    · intro h
      exact h1 idx name h
  have hidx : ∀ (name : String) (idx : Nat),
      (buildNameSet names 0 ∅).lookup name = some idx → idx < names.length := by
    intro name idx h
    rcases List.getElem?_eq_some.mp ((hlookup name idx).mp h) with ⟨hlt, _⟩
    exact hlt
  rcases filterServerLoop_spec (buildNameSet names 0 ∅) names.length hidx rows
    (List.replicate names.length Server.zero) (List.length_replicate _ _) with
    ⟨out, hout, holen, hcells⟩
  have hlen1 : names.length ≠ 0 := fun h => hne (List.length_eq_zero.mp h)
  unfold filterServerCSV
  simp only [h3, hlen1, if_false]
  rw [hout]
  congr 1
  apply List.ext_getElem?
  intro i
  rw [hcells i, List.getElem?_map]
  by_cases hi : i < names.length
  · rw [List.getElem?_replicate_of_lt hi, List.getElem?_eq_getElem hi]
    simp only [Option.map_some']
    congr 3
    apply List.filter_congr
    intro r _
    have hiff := hlookup r.Name i
    rw [List.getElem?_eq_getElem hi, Option.some.injEq] at hiff
    by_cases hr : r.Name = names[i]
    · simp [hr, hiff.mpr hr.symm]
    · have : ¬ (buildNameSet names 0 ∅).lookup r.Name = some i :=
        fun hc => hr (hiff.mp hc).symm
      simp [hr, this]
  · have h1' : (List.replicate names.length (Server.zero : Server α))[i]? = none := by
      rw [List.getElem?_eq_none_iff, List.length_replicate]
      omega
    have h2' : names[i]? = none := by
      rw [List.getElem?_eq_none_iff]
      omega
    rw [h1', h2']
    rfl

/-- Witness of C17, amended: a table with the names `a, c, a` and the requested names
`["b", "a"]`; the result is a hole followed by the second record named `a`. -/
theorem filterServerCSV_distinct_names_witness :
    filterServerCSV [(⟨1, "a", "", "", "", "", "", "", 1, 2⟩ : Server float64),
        ⟨2, "c", "", "", "", "", "", "", 3, 4⟩, ⟨3, "a", "", "", "", "", "", "", 5, 6⟩]
        ["b", "a"] =
      some (["b", "a"].map (fun name =>
        (([(⟨1, "a", "", "", "", "", "", "", 1, 2⟩ : Server float64),
            ⟨2, "c", "", "", "", "", "", "", 3, 4⟩,
            ⟨3, "a", "", "", "", "", "", "", 5, 6⟩].filter
          (fun r => decide (r.Name = name))).getLast?).getD Server.zero)) :=
  filterServerCSV_distinct_names _ ["b", "a"] (by simp) (by decide)

end Pipeline

/-! ## Rounding at work -/

/-- The sum of a list is rounded at every addition: `1e16 + 1` is `1e16`, so the numbers
`1e16, 1, -1e16` add up to `0` in list order, not to `1`. -/
theorem float64.sum_rounds : float64.sum [1e16, 1, -1e16] = 0 := by decide!

/-- The mean that `calculateAverageRTTMap` stores for the samples `1e16, 1, -1e16` of one pair
is `0`, where the mean of the three real numbers is `1/3`. -/
theorem calculateAverageRTTMap_rounds :
    ((calculateAverageRTTMap [(⟨1, 10, "", 0, 1e16, 0, 0⟩ : Ping float64),
        ⟨1, 10, "", 0, 1, 0, 0⟩, ⟨1, 10, "", 0, -1e16, 0, 0⟩]).lookup 1).bind
      (fun inner => inner.lookup 10) = some 0 := by decide!

/-- The average of the points `(1, 1), (1, 1), (2, 0)` has the latitude `4 / 3` and the
longitude `2 / 3`, each rounded to the nearest `float64`. -/
theorem AverageLocation_rounds :
    AverageLocation [some (⟨1, 1⟩ : Location), some ⟨1, 1⟩, some ⟨2, 0⟩] =
      some ⟨float64.ofRat 4 3, float64.ofRat 2 3⟩ := by decide!

end Gslbcore
